import Mathlib

/-!
# gator: feed ingestion scheduler and scraping pipeline

A shallow embedding of `handler_user.go`.  Go strings are Lean strings, `error`
values are their `Error()` text, `nil` errors are `none`.  The database, the
network, the clock, the UUID generator and the Go standard library functions
the handlers call (`time.Parse`, `time.ParseDuration`, `xml.Unmarshal`,
`html.UnescapeString`) are fields of an environment record `Env`; every call
on one of them is recorded, in program order, in the `out` trace of the
`World` the handlers thread through.
-/

namespace Gator

/-! ## Data model -/

/-- Identifier values (`uuid.UUID`). -/
abbrev UUID := Nat

/-- Instants (`time.Time`), as an abstract number. -/
abbrev Time := Int

/-- Handle of an HTTP response whose body has not been read yet. -/
abbrev Response := Nat

/-- The `RSSItem` struct. -/
structure RSSItem where
  Title : String
  Link : String
  Description : String
  PubDate : String
deriving DecidableEq, Repr

/-- The anonymous `Channel` struct of `RSSFeed`. -/
structure RSSChannel where
  Title : String
  Link : String
  Description : String
  Item : List RSSItem
deriving DecidableEq, Repr

/-- The `RSSFeed` struct. -/
structure RSSFeed where
  Channel : RSSChannel
deriving DecidableEq, Repr

/-- The fields of `database.Feed` the handlers read; the type is declared in
`internal/database`, outside the sources, `LastFetchedAt` is the nullable
`last_fetched_at` column. -/
structure Feed where
  ID : UUID
  Name : String
  Url : String
  UserID : UUID
  LastFetchedAt : Option Time
deriving DecidableEq, Repr

/-- The fields of `database.User` the handlers read. -/
structure User where
  ID : UUID
  Name : String
deriving DecidableEq, Repr

/-- The `database.CreatePostParams` literal built by `scrapeFeeds`. -/
structure CreatePostParams where
  ID : UUID
  CreatedAt : Time
  UpdatedAt : Time
  Title : String
  Url : String
  Description : String
  PublishedAt : Time
  FeedID : UUID
deriving DecidableEq, Repr

/-- A row of the posts table, as `CreatePost` returns it. -/
structure Post where
  ID : UUID
  CreatedAt : Time
  UpdatedAt : Time
  Title : String
  Url : String
  Description : String
  PublishedAt : Time
  FeedID : UUID
deriving DecidableEq, Repr

/-- The `database.CreateFeedParams` literal. -/
structure CreateFeedParams where
  ID : UUID
  CreatedAt : Time
  UpdatedAt : Time
  Name : String
  Url : String
  UserID : UUID
deriving DecidableEq, Repr

/-- The `database.CreateFeedFollowParams` literal. -/
structure CreateFeedFollowParams where
  ID : UUID
  CreatedAt : Time
  UpdatedAt : Time
  UserID : UUID
  FeedID : UUID
deriving DecidableEq, Repr

/-- The field of a `CreateFeedFollow` result row the handlers read. -/
structure CreateFeedFollowRow where
  FeedName : String
deriving DecidableEq, Repr

/-- The `command` struct (declared outside the sources; the handlers read
`Name` and `Args`). -/
structure command where
  Name : String
  Args : List String
deriving DecidableEq, Repr

/-- Calls on the outside world, in the order the program makes them. -/
inductive Event where
  | print (text : String)
  | dbGetNextFeedToFetch
  | dbMarkFeedFetched (id : UUID)
  | dbCreatePost (p : CreatePostParams)
  | dbGetFeedByURL (url : String)
  | dbCreateFeed (p : CreateFeedParams)
  | dbCreateFeedFollow (p : CreateFeedFollowParams)
  | httpDo (url : String)
  | newTicker (d : Int)
deriving DecidableEq, Repr

/-- The state a handler threads through: the database, the number of values
drawn so far from the nondeterministic sources (network, clock, UUIDs), and
the trace of calls made. -/
structure World (σ : Type) where
  db : σ
  clock : Nat
  out : List Event

/-- Append one event to the trace. -/
def World.emit {σ : Type} (w : World σ) (e : Event) : World σ :=
  { w with out := w.out ++ [e] }

/-- The external collaborators.  Database operations take and return the
database state; the nondeterministic sources are indexed by the draw count. -/
structure Env (σ : Type) where
  GetNextFeedToFetch : σ → Except String Feed × σ
  MarkFeedFetched : σ → UUID → Except String Feed × σ
  CreatePost : σ → CreatePostParams → Except String Post × σ
  GetFeedByURL : σ → String → Except String Feed × σ
  CreateFeed : σ → CreateFeedParams → Except String Feed × σ
  CreateFeedFollow : σ → CreateFeedFollowParams → Except String (List CreateFeedFollowRow) × σ
  httpNewRequest : String → Option String
  clientDo : Nat → String → Except String Response
  readAll : Response → Except String String
  xmlUnmarshal : String → Except String RSSFeed
  htmlUnescape : String → String
  timeParse : String → String → Except String Time
  timeParseDuration : String → Except String Int
  fmtDuration : Int → String
  uuidNew : Nat → UUID
  timeNow : Nat → Time

/-- How a handler invocation ends: it returns an error value (`none` is `nil`),
it panics, or (for the scheduler loop, after the given number of ticks) it is
still running. -/
inductive Outcome (σ : Type) where
  | returned (err : Option String) (w : World σ)
  | indexOutOfRange (index len : Nat) (w : World σ)
  | tickerPanic (d : Int) (w : World σ)
  | running (w : World σ)

/-! ## `strings.Contains` -/

/-- Does `s` start with `p`? -/
def startsWithChars : List Char → List Char → Bool
  | _, [] => true
  | [], _ :: _ => false
  | c :: cs, p :: ps => c == p && startsWithChars cs ps

/-- Does `sub` occur in `s`? -/
def containsChars : List Char → List Char → Bool
  | [], sub => sub.isEmpty
  | c :: cs, sub => startsWithChars (c :: cs) sub || containsChars cs sub

/-- The function `strings.Contains`. -/
def stringsContains (s substr : String) : Bool :=
  containsChars s.data substr.data

/-! ## Date normalizer -/

/-- The constant `time.RFC1123Z`. -/
def RFC1123Z : String := "Mon, 02 Jan 2006 15:04:05 -0700"

/-- The constant `time.RFC1123`. -/
def RFC1123 : String := "Mon, 02 Jan 2006 15:04:05 MST"

/-- The constant `time.RFC3339`. -/
def RFC3339 : String := "2006-01-02T15:04:05Z07:00"

/-- The `layouts` slice of `parsePublishedAt`. -/
def layouts : List String :=
  [ RFC1123Z,
    RFC1123,
    RFC3339,
    "2006-01-02T15:04:05Z",
    "2006-01-02T15:04:05",
    "Mon, 02 Jan 2006",
    "2006-01-02",
    "02 Jan 2006 15:04:05 -0700",
    "02 Jan 2006 15:04:05",
    "January 2, 2006",
    "Jan 2, 2006" ]

/-- The `for _, layout := range layouts` loop of `parsePublishedAt`: the first
successful `time.Parse`, or `none` when the loop runs to its end. -/
def parseLayouts (timeParse : String → String → Except String Time) (pubDateStr : String) :
    List String → Option Time
  | [] => none
  | layout :: rest =>
    match timeParse layout pubDateStr with
    | .ok t => some t
    | .error _ => parseLayouts timeParse pubDateStr rest

/-- The function `parsePublishedAt`. -/
def parsePublishedAt (timeParse : String → String → Except String Time) (pubDateStr : String) :
    Except String Time :=
  match parseLayouts timeParse pubDateStr layouts with
  | some t => .ok t
  | none => .error ("unable to parse date: " ++ pubDateStr)

/-! ## Feed fetcher -/

/-- One pass of the body of the `for i := range feed.Channel.Item` loop of
`fetchFeed`: the two assignments to `Item[i].Title` and `Item[i].Description`. -/
def unescapeItemAt (unescape : String → String) (items : List RSSItem) (i : Nat) :
    List RSSItem :=
  let items1 :=
    match items.get? i with
    | some it => items.set i { it with Title := unescape it.Title }
    | none => items
  match items1.get? i with
  | some it => items1.set i { it with Description := unescape it.Description }
  | none => items1

/-- The `for i := range feed.Channel.Item` loop of `fetchFeed`. -/
def unescapeItems (unescape : String → String) (items : List RSSItem) : List RSSItem :=
  (List.range items.length).foldl (unescapeItemAt unescape) items

/-- The statements of `fetchFeed` after a successful `xml.Unmarshal`. -/
def unescapeFeed (unescape : String → String) (feed : RSSFeed) : RSSFeed :=
  let c1 : RSSChannel := { feed.Channel with Title := unescape feed.Channel.Title }
  let c2 : RSSChannel := { c1 with Description := unescape c1.Description }
  { Channel := { c2 with Item := unescapeItems unescape c2.Item } }

/-- The function `fetchFeed`. -/
def fetchFeed {σ : Type} (env : Env σ) (w : World σ) (feedURL : String) :
    Except String RSSFeed × World σ :=
  match env.httpNewRequest feedURL with
  | some err => (.error err, w)
  | none =>
    let w1 : World σ := { w with clock := w.clock + 1, out := w.out ++ [.httpDo feedURL] }
    match env.clientDo w.clock feedURL with
    | .error err => (.error err, w1)
    | .ok response =>
      match env.readAll response with
      | .error err => (.error err, w1)
      | .ok bodyBytes =>
        match env.xmlUnmarshal bodyBytes with
        | .error err => (.error err, w1)
        | .ok feed => (.ok (unescapeFeed env.htmlUnescape feed), w1)

/-! ## Post ingestor and one scheduler tick -/

/-- The text `scrapeFeeds` looks for in a `CreatePost` error. -/
def duplicateKeyText : String := "duplicate key value violates unique constraint"

/-- The `CreatePostParams` literal of `scrapeFeeds` for one item. -/
def postParams {σ : Type} (env : Env σ) (feed : Feed) (clock : Nat) (item : RSSItem)
    (publishedAt : Time) : CreatePostParams :=
  { ID := env.uuidNew clock,
    CreatedAt := env.timeNow (clock + 1),
    UpdatedAt := env.timeNow (clock + 2),
    Title := item.Title,
    Url := item.Link,
    Description := item.Description,
    PublishedAt := publishedAt,
    FeedID := feed.ID }

/-- The body of the `for _, item := range rssFeed.Channel.Item` loop of
`scrapeFeeds`; every path through it ends in `continue` or falls off its end. -/
def ingestItem {σ : Type} (env : Env σ) (feed : Feed) (w : World σ) (item : RSSItem) :
    World σ :=
  match parsePublishedAt env.timeParse item.PubDate with
  | .error err =>
    w.emit (.print ("Error parsing date " ++ item.PubDate ++ ": " ++ err ++ "\n Skipping to next."))
  | .ok publishedAt =>
    let params := postParams env feed w.clock item publishedAt
    let r := env.CreatePost w.db params
    let w1 : World σ := { db := r.2, clock := w.clock + 3, out := w.out ++ [.dbCreatePost params] }
    match r.1 with
    | .ok _ => w1
    | .error err =>
      if stringsContains err duplicateKeyText then
        w1.emit (.print "Duplicate key found, passing\n")
      else
        w1.emit (.print ("Error creating post: " ++ err ++ "\n"))

/-- The `for _, item := range rssFeed.Channel.Item` loop of `scrapeFeeds`. -/
def ingestItems {σ : Type} (env : Env σ) (feed : Feed) (w : World σ) (items : List RSSItem) :
    World σ :=
  items.foldl (ingestItem env feed) w

/-- The function `scrapeFeeds`; the first component is the returned error. -/
def scrapeFeeds {σ : Type} (env : Env σ) (w : World σ) : Option String × World σ :=
  let r := env.GetNextFeedToFetch w.db
  let w1 : World σ := { w with db := r.2, out := w.out ++ [.dbGetNextFeedToFetch] }
  match r.1 with
  | .error err => (some ("error getting next feed: " ++ err), w1)
  | .ok feed =>
    let w2 := w1.emit (.print ("Fetching feed: " ++ feed.Url ++ "\n"))
    let m := env.MarkFeedFetched w2.db feed.ID
    let w3 : World σ := { w2 with db := m.2, out := w2.out ++ [.dbMarkFeedFetched feed.ID] }
    match m.1 with
    | .error err => (some ("error marking feed as fetched: " ++ err), w3)
    | .ok _ =>
      let f := fetchFeed env w3 feed.Url
      match f.1 with
      | .error err => (some ("error fetching feed: " ++ err), f.2)
      | .ok rssFeed => (none, ingestItems env feed f.2 rssFeed.Channel.Item)

/-! ## Fetch scheduler -/

/-- One second, in nanoseconds (`1 * time.Second`). -/
def minInterval : Int := 1000000000

/-- The body of the `for ; ; <-ticker.C` loop of `handlerAgg`; it holds no
`return` and no `break`. -/
def aggTick {σ : Type} (env : Env σ) (w : World σ) : World σ :=
  let r := scrapeFeeds env w
  match r.1 with
  | some err => r.2.emit (.print ("Error scraping feeds: " ++ err ++ "\n"))
  | none => r.2

/-- The first `ticks` passes of the `for ; ; <-ticker.C` loop of `handlerAgg`. -/
def aggLoop {σ : Type} (env : Env σ) : Nat → World σ → World σ
  | 0, w => w
  | ticks + 1, w => aggLoop env ticks (aggTick env w)

/-- The function `handlerAgg`, observed after `ticks` passes of its loop.
`time.NewTicker` panics on an interval that is not positive. -/
def handlerAgg {σ : Type} (env : Env σ) (ticks : Nat) (w : World σ) (cmd : command) :
    Outcome σ :=
  if cmd.Args.length ≠ 1 then .returned (some "agg needs exactly one argument") w
  else
    match cmd.Args.get? 0 with
    | none => .indexOutOfRange 0 cmd.Args.length w
    | some arg =>
      match env.timeParseDuration arg with
      | .error _ => .returned (some "argument needs to be in a #s format for time") w
      | .ok requested =>
        let clamped : Int × World σ :=
          if requested < minInterval then
            (minInterval, w.emit (.print ("Warning: Requested interval "
              ++ env.fmtDuration requested ++ " is too short. Using "
              ++ env.fmtDuration minInterval ++ " instead.\n")))
          else (requested, w)
        let timeBetweenRequests := clamped.1
        let w1 := clamped.2.emit
          (.print ("Collecting feeds every " ++ env.fmtDuration timeBetweenRequests ++ "\n"))
        if timeBetweenRequests ≤ 0 then .tickerPanic timeBetweenRequests w1
        else .running (aggLoop env ticks (w1.emit (.newTicker timeBetweenRequests)))

/-! ## Subscription manager -/

/-- The tail of `handlerAddFeed` and `handlerFollow`: `CreateFeedFollow` for the
feed, then the message built from `feedFollow[0]`. -/
def followFeed {σ : Type} (env : Env σ) (w : World σ) (params : CreateFeedFollowParams)
    (errText : String) : Outcome σ :=
  let r := env.CreateFeedFollow w.db params
  let w1 : World σ := { w with db := r.2, out := w.out ++ [.dbCreateFeedFollow params] }
  match r.1 with
  | .error err => .returned (some (errText ++ err)) w1
  | .ok feedFollow =>
    match feedFollow with
    | [] => .indexOutOfRange 0 0 w1
    | row :: _ =>
      .returned none (w1.emit (.print ("You are now following \x27" ++ row.FeedName ++ "\x27\n")))

/-- The function `handlerAddFeed`. -/
def handlerAddFeed {σ : Type} (env : Env σ) (w : World σ) (args : command) (user : User) :
    Outcome σ :=
  if args.Args.length < 2 then .returned (some "not enough arguments") w
  else
    match args.Args.get? 0 with
    | none => .indexOutOfRange 0 args.Args.length w
    | some feedName =>
      match args.Args.get? 1 with
      | none => .indexOutOfRange 1 args.Args.length w
      | some feedURL =>
        let f := fetchFeed env w feedURL
        match f.1 with
        | .error err => .returned (some err) f.2
        | .ok _ =>
          let w1 := f.2
          let now := env.timeNow w1.clock
          let params : CreateFeedParams :=
            { ID := env.uuidNew (w1.clock + 1), CreatedAt := now, UpdatedAt := now,
              Name := feedName, Url := feedURL, UserID := user.ID }
          let r := env.CreateFeed w1.db params
          let w2 : World σ :=
            { db := r.2, clock := w1.clock + 2, out := w1.out ++ [.dbCreateFeed params] }
          match r.1 with
          | .error err => .returned (some err) w2
          | .ok feed =>
            let w3 := w2.emit (.print ("Feed \x27" ++ feed.Name ++ "\x27 added successfully\n"))
            followFeed env { w3 with clock := w3.clock + 1 }
              { ID := env.uuidNew w3.clock, CreatedAt := now, UpdatedAt := now,
                UserID := user.ID, FeedID := feed.ID }
              "error following feed: "

/-- The function `handlerFollow`. -/
def handlerFollow {σ : Type} (env : Env σ) (w : World σ) (args : command) (user : User) :
    Outcome σ :=
  if args.Args.length < 1 then .returned (some "not enough arguments") w
  else
    match args.Args.get? 0 with
    | none => .indexOutOfRange 0 args.Args.length w
    | some feedName =>
      match args.Args.get? 1 with
      | none => .indexOutOfRange 1 args.Args.length w
      | some feedURL =>
        let g := env.GetFeedByURL w.db feedURL
        let w1 : World σ := { w with db := g.2, out := w.out ++ [.dbGetFeedByURL feedURL] }
        let follow (w2 : World σ) (feed : Feed) : Outcome σ :=
          followFeed env { w2 with clock := w2.clock + 2 }
            { ID := env.uuidNew w2.clock, CreatedAt := env.timeNow (w2.clock + 1),
              UpdatedAt := env.timeNow (w2.clock + 1), UserID := user.ID, FeedID := feed.ID }
            "error creating feed follow: "
        match g.1 with
        | .ok feed => follow w1 feed
        | .error _ =>
          let params : CreateFeedParams :=
            { ID := env.uuidNew w1.clock, CreatedAt := env.timeNow (w1.clock + 1),
              UpdatedAt := env.timeNow (w1.clock + 1), Name := feedName, Url := feedURL,
              UserID := user.ID }
          let r := env.CreateFeed w1.db params
          let w2 : World σ :=
            { db := r.2, clock := w1.clock + 2, out := w1.out ++ [.dbCreateFeed params] }
          match r.1 with
          | .error err => .returned (some ("error creating feed: " ++ err)) w2
          | .ok feed => follow w2 feed

/-! ## Text wrapping -/

/-- The function `unicode.IsSpace`. -/
def unicodeIsSpace (c : Char) : Bool :=
  let r := c.toNat
  if r ≤ 0xFF then
    r == 0x09 || r == 0x0A || r == 0x0B || r == 0x0C || r == 0x0D || r == 0x20
      || r == 0x85 || r == 0xA0
  else
    r == 0x1680 || (0x2000 ≤ r && r ≤ 0x200A) || r == 0x2028 || r == 0x2029
      || r == 0x202F || r == 0x205F || r == 0x3000

/-- The scan of `strings.Fields`: `cur` holds, reversed, the characters of the
word being read. -/
def fieldsChars : List Char → List Char → List String
  | [], cur => if cur.isEmpty then [] else [String.mk cur.reverse]
  | c :: cs, cur =>
    if unicodeIsSpace c then
      if cur.isEmpty then fieldsChars cs [] else String.mk cur.reverse :: fieldsChars cs []
    else fieldsChars cs (c :: cur)

/-- The function `strings.Fields` (on text that is valid UTF-8). -/
def stringsFields (s : String) : List String :=
  fieldsChars s.data []

/-- The builtin `len` of a string: its length in bytes. -/
def goLen (s : String) : Int :=
  (s.utf8ByteSize : Int)

/-- Wrap-around of `int` arithmetic (64-bit two's complement). -/
def int64 (x : Int) : Int :=
  (x + 9223372036854775808) % 18446744073709551616 - 9223372036854775808

/-- The body of the `for _, word := range words[1:]` loop of `wrapText`, on the
pair `(wrapped, spaceLeft)`. -/
def wrapStep (lineWidth : Int) (st : String × Int) (word : String) : String × Int :=
  if int64 (goLen word + 1) > st.2 then
    (st.1 ++ ("\n" ++ word), int64 (lineWidth - goLen word))
  else
    (st.1 ++ (" " ++ word), int64 (st.2 - int64 (goLen word + 1)))

/-- The function `wrapText`. -/
def wrapText (text : String) (lineWidth : Int) : String :=
  match stringsFields text with
  | [] => ""
  | first :: rest =>
    (rest.foldl (wrapStep lineWidth) (first, int64 (lineWidth - goLen first))).1

/-- Split at every line feed: `splitLinesChars [] = [[]]`. -/
def splitLinesChars : List Char → List (List Char)
  | [] => [[]]
  | c :: cs =>
    if c = '\n' then [] :: splitLinesChars cs
    else
      match splitLinesChars cs with
      | [] => [[c]]
      | l :: ls => (c :: l) :: ls

/-- The newline-separated lines of a string (`strings.Split(s, "\n")`). -/
def splitLines (s : String) : List String :=
  (splitLinesChars s.data).map String.mk

/-! ## The relational store -/

/-- The dedup key of a post: its feed and its URL. -/
abbrev PostKey := UUID × String

/-- The key a `CreatePost` call inserts under. -/
def CreatePostParams.key (p : CreatePostParams) : PostKey :=
  (p.FeedID, p.Url)

/-- Modelled from the spec: the `createPost` contract of the relational store
(`internal/database`, not among the sources), spec sections 3 and 6: a post's
(feed, URL) pair is unique, `createPost` returns `Post|UniqueViolation`.  A call
whose key is already stored fails with the unique-constraint error and changes
nothing; a call whose key is new stores one post under that key.  `keys` lists
the keys of the stored posts, newest first. -/
def EnforcesPostKey {σ : Type} (env : Env σ) (keys : σ → List PostKey) : Prop :=
  ∀ (db : σ) (p : CreatePostParams),
    (p.key ∈ keys db →
      ∃ err, stringsContains err duplicateKeyText = true ∧ env.CreatePost db p = (.error err, db)) ∧
    (p.key ∉ keys db →
      ∃ post db1, env.CreatePost db p = (.ok post, db1) ∧ keys db1 = p.key :: keys db)

/-- Modelled from the spec: the tables of the relational store the scheduler
touches (spec section 3); `now` is the store's own clock. -/
structure Store where
  feeds : List Feed
  posts : List Post
  now : Time
deriving DecidableEq, Repr

/-- The keys of the stored posts, newest first. -/
def Store.keys (st : Store) : List PostKey :=
  st.posts.map fun p => (p.FeedID, p.Url)

/-- Is `a` at least as stale as `b`?  Never-fetched feeds are the stalest. -/
def staler (a b : Feed) : Bool :=
  match a.LastFetchedAt, b.LastFetchedAt with
  | none, _ => true
  | some _, none => false
  | some x, some y => decide (x ≤ y)

/-- The stalest feed of a list, the first one among equals. -/
def stalest : List Feed → Option Feed
  | [] => none
  | f :: fs =>
    match stalest fs with
    | none => some f
    | some g => if staler f g then some f else some g

/-- Modelled from the spec: `getNextFeedToFetch() -> Feed|empty`, the feed whose
`last_fetched_at` is oldest, nulls first (spec section 4.1). -/
def Store.GetNextFeedToFetch (st : Store) : Except String Feed × Store :=
  match stalest st.feeds with
  | some f => (.ok f, st)
  | none => (.error "sql: no rows in result set", st)

/-- Modelled from the spec: `markFeedFetched(feedId, timestamp) -> Feed` sets
the feed's `last_fetched_at` to the current time. -/
def Store.MarkFeedFetched (st : Store) (id : UUID) : Except String Feed × Store :=
  match st.feeds.find? (fun f => f.ID == id) with
  | none => (.error "sql: no rows in result set", st)
  | some f =>
    let marked : Feed := { f with LastFetchedAt := some st.now }
    (.ok marked,
      { st with feeds := st.feeds.map (fun g => if g.ID == id then marked else g),
                now := st.now + 1 })

/-- The row a successful `CreatePost` stores. -/
def CreatePostParams.toPost (p : CreatePostParams) : Post :=
  { ID := p.ID, CreatedAt := p.CreatedAt, UpdatedAt := p.UpdatedAt, Title := p.Title,
    Url := p.Url, Description := p.Description, PublishedAt := p.PublishedAt,
    FeedID := p.FeedID }

/-- Modelled from the spec: `createPost(...) -> Post|UniqueViolation`, unique per
(feed, URL). -/
def Store.CreatePost (st : Store) (p : CreatePostParams) : Except String Post × Store :=
  if p.key ∈ st.keys then
    (.error "pq: duplicate key value violates unique constraint", st)
  else
    (.ok p.toPost, { st with posts := p.toPost :: st.posts })

/-- Modelled from the spec: `getFeedByUrl(url) -> Feed|NotFound`. -/
def Store.GetFeedByURL (st : Store) (url : String) : Except String Feed × Store :=
  match st.feeds.find? (fun f => f.Url == url) with
  | some f => (.ok f, st)
  | none => (.error "sql: no rows in result set", st)

/-- Modelled from the spec: `createFeed(name, url, ownerId) -> Feed`, the source
URL unique. -/
def Store.CreateFeed (st : Store) (p : CreateFeedParams) : Except String Feed × Store :=
  if st.feeds.any (fun f => f.Url == p.Url) then
    (.error "pq: duplicate key value violates unique constraint", st)
  else
    let feed : Feed :=
      { ID := p.ID, Name := p.Name, Url := p.Url, UserID := p.UserID, LastFetchedAt := none }
    (.ok feed, { st with feeds := st.feeds ++ [feed] })

/-- Modelled from the spec: `createFeedFollow(userId, feedId) -> FeedFollow`; the
follows table itself is not modelled, the row names the followed feed. -/
def Store.CreateFeedFollow (st : Store) (p : CreateFeedFollowParams) :
    Except String (List CreateFeedFollowRow) × Store :=
  match st.feeds.find? (fun f => f.ID == p.FeedID) with
  | some f => (.ok [{ FeedName := f.Name }], st)
  | none => (.error "pq: insert or update violates foreign key constraint", st)

/-! ## A small concrete environment -/

/-- A stand-in for `time.Parse` that knows two layouts and three dates. -/
def sampleTimeParse (layout value : String) : Except String Time :=
  if layout = "2006-01-02" ∧ value = "2024-05-01" then .ok 1714521600
  else if layout = "2006-01-02" ∧ value = "2024-05-02" then .ok 1714608000
  else if layout = "Jan 2, 2006" ∧ value = "May 3, 2024" then .ok 1714694400
  else .error ("parsing time: cannot parse " ++ value ++ " as " ++ layout)

/-- A stand-in for `time.ParseDuration` that knows four durations. -/
def sampleParseDuration (s : String) : Except String Int :=
  if s = "100ms" then .ok 100000000
  else if s = "30s" then .ok 30000000000
  else if s = "0s" then .ok 0
  else if s = "-5s" then .ok (-5000000000)
  else .error ("time: invalid duration " ++ s)

/-- A stand-in for `html.UnescapeString` that knows one entity. -/
def sampleUnescape (s : String) : String :=
  if s = "Tom &amp; Jerry" then "Tom & Jerry" else s

/-- The feed document the sample network serves. -/
def sampleFeedDoc : RSSFeed :=
  { Channel :=
    { Title := "Tom &amp; Jerry", Link := "https://example.com", Description := "news",
      Item :=
        [ { Title := "one", Link := "https://example.com/1", Description := "first",
            PubDate := "2024-05-01" },
          { Title := "two", Link := "https://example.com/2", Description := "Tom &amp; Jerry",
            PubDate := "not-a-date" },
          { Title := "three", Link := "https://example.com/3", Description := "third",
            PubDate := "May 3, 2024" } ] } }

/-- An environment over the modelled store: the network serves `sampleFeedDoc`
at `https://example.com/rss` and fails elsewhere. -/
def sampleEnv : Env Store where
  GetNextFeedToFetch := Store.GetNextFeedToFetch
  MarkFeedFetched := Store.MarkFeedFetched
  CreatePost := Store.CreatePost
  GetFeedByURL := Store.GetFeedByURL
  CreateFeed := Store.CreateFeed
  CreateFeedFollow := Store.CreateFeedFollow
  httpNewRequest := fun _ => none
  clientDo := fun _ url =>
    if url = "https://example.com/rss" then .ok 0 else .error "dial tcp: no such host"
  readAll := fun _ => .ok "<rss/>"
  xmlUnmarshal := fun _ => .ok sampleFeedDoc
  htmlUnescape := sampleUnescape
  timeParse := sampleTimeParse
  timeParseDuration := sampleParseDuration
  fmtDuration := fun d => toString d ++ "ns"
  uuidNew := fun n => 1000 + n
  timeNow := fun n => 1714700000 + n

/-- A feed of the sample store. -/
def sampleFeed : Feed :=
  { ID := 7, Name := "example", Url := "https://example.com/rss", UserID := 1,
    LastFetchedAt := none }

/-- A feed whose host does not resolve. -/
def brokenFeed : Feed :=
  { ID := 8, Name := "broken", Url := "https://nowhere.invalid/rss", UserID := 1,
    LastFetchedAt := none }

/-- A world whose store holds `sampleFeed` and no post. -/
def sampleWorld : World Store :=
  { db := { feeds := [sampleFeed], posts := [], now := 1714700000 }, clock := 0, out := [] }

/-- A world whose store holds `brokenFeed` only. -/
def brokenWorld : World Store :=
  { db := { feeds := [brokenFeed], posts := [], now := 1714700000 }, clock := 0, out := [] }

/-! ## Trace projections -/

/-- The parameters of the `CreatePost` calls in a trace, in call order. -/
def createPostCalls (out : List Event) : List CreatePostParams :=
  out.filterMap fun e =>
    match e with
    | .dbCreatePost p => some p
    | _ => none

/-- The intervals of the tickers created in a trace. -/
def tickerIntervals (out : List Event) : List Int :=
  out.filterMap fun e =>
    match e with
    | .newTicker d => some d
    | _ => none

/-- The number of `GetNextFeedToFetch` calls in a trace: one for each
`scrapeFeeds` invocation. -/
def scrapeCount (out : List Event) : Nat :=
  out.count .dbGetNextFeedToFetch

/-- Does `parsePublishedAt` accept the item's `pubDate`? -/
def dateAccepted {σ : Type} (env : Env σ) (item : RSSItem) : Bool :=
  match parsePublishedAt env.timeParse item.PubDate with
  | .ok _ => true
  | .error _ => false

/-- What an item contributes to its `CreatePost` call: title, URL, description,
normalized publication date and feed, when its date is accepted. -/
def postContent {σ : Type} (env : Env σ) (feed : Feed) (item : RSSItem) :
    Option (String × String × String × Time × UUID) :=
  match parsePublishedAt env.timeParse item.PubDate with
  | .ok t => some (item.Title, item.Link, item.Description, t, feed.ID)
  | .error _ => none

/-- The item-derived fields of a `CreatePost` call. -/
def CreatePostParams.content (p : CreatePostParams) : String × String × String × Time × UUID :=
  (p.Title, p.Url, p.Description, p.PublishedAt, p.FeedID)

/-- The trace of a `scrapeFeeds` invocation up to its `MarkFeedFetched` call. -/
def markedTrace (feed : Feed) : List Event :=
  [.dbGetNextFeedToFetch, .print ("Fetching feed: " ++ feed.Url ++ "\n"),
    .dbMarkFeedFetched feed.ID]

/-- The world in which `scrapeFeeds` calls `fetchFeed`: `db2` is the database
as `MarkFeedFetched` left it. -/
def fetchWorld {σ : Type} (w : World σ) (feed : Feed) (db2 : σ) : World σ :=
  { db := db2, clock := w.clock, out := w.out ++ markedTrace feed }

/-- An item as `fetchFeed` returns it: title and description unescaped. -/
def unescapedItem (unescape : String → String) (it : RSSItem) : RSSItem :=
  { Title := unescape it.Title, Link := it.Link, Description := unescape it.Description,
    PubDate := it.PubDate }

/-- The store of `brokenWorld` once `brokenFeed` is marked as fetched. -/
def markedBrokenStore : Store :=
  { feeds := [{ brokenFeed with LastFetchedAt := some 1714700000 }], posts := [],
    now := 1714700001 }

/-- The length in bytes of a character sequence. -/
def byteSize (l : List Char) : Nat :=
  (String.mk l).utf8ByteSize

/-! ## Stores with failures other than the uniqueness conflict -/

/-- The item-derived fields of a post: title, URL, description, publication
date and feed. -/
abbrev PostContent := String × String × String × Time × UUID

/-- Modelled from the spec: the `createPost` contract of the relational store
(`internal/database`, not among the sources) with the other persistence
failures of spec sections 4.4 and 5.  A call whose key is stored already fails
with the unique-constraint error and changes nothing; a call whose key is new
and whose content the store refuses fails and changes nothing, `refused` being
a rule on the item-derived fields alone; every other call stores one post under
its key. -/
def RepeatablePostStore {σ : Type} (env : Env σ) (keys : σ → List PostKey)
    (refused : PostContent → Bool) : Prop :=
  ∀ (db : σ) (p : CreatePostParams),
    (p.key ∈ keys db →
      ∃ err, stringsContains err duplicateKeyText = true ∧ env.CreatePost db p = (.error err, db)) ∧
    (p.key ∉ keys db → refused p.content = true →
      ∃ err, env.CreatePost db p = (.error err, db)) ∧
    (p.key ∉ keys db → refused p.content = false →
      ∃ post db1, env.CreatePost db p = (.ok post, db1) ∧ keys db1 = p.key :: keys db)

/-- The rule of a posts table that refuses an empty title. -/
def refusesUntitled (c : PostContent) : Bool :=
  c.1 == ""

/-- A `createPost` that enforces the (feed, URL) key and refuses an empty
title with an error of another kind. -/
def Store.CreateTitledPost (st : Store) (p : CreatePostParams) : Except String Post × Store :=
  if p.key ∈ st.keys then
    (.error "pq: duplicate key value violates unique constraint", st)
  else if refusesUntitled p.content then
    (.error "pq: new row violates check constraint", st)
  else
    (.ok p.toPost, { st with posts := p.toPost :: st.posts })

/-- The sample environment over a posts table that refuses an empty title. -/
def titledEnv : Env Store :=
  { sampleEnv with CreatePost := Store.CreateTitledPost }

/-- The sample batch headed by an item with a valid date and no title. -/
def untitledBatch : List RSSItem :=
  { Title := "", Link := "https://example.com/0", Description := "zero",
    PubDate := "2024-05-02" } :: sampleFeedDoc.Channel.Item

/-- A store whose connection drops its next `outages` inserts. -/
structure FlakyStore where
  store : Store
  outages : Nat
deriving DecidableEq, Repr

/-- Run an operation of the modelled store on a flaky one. -/
def FlakyStore.lift {α : Type} (op : Store → α × Store) (st : FlakyStore) : α × FlakyStore :=
  ((op st.store).1, { st with store := (op st.store).2 })

/-- A `createPost` that rejects a stored (feed, URL) with the unique-constraint
error, as the posts table demands, and fails an insert of a new one with a
connection error while an outage lasts. -/
def FlakyStore.CreatePost (st : FlakyStore) (p : CreatePostParams) :
    Except String Post × FlakyStore :=
  if p.key ∈ st.store.keys then
    (.error "pq: duplicate key value violates unique constraint", st)
  else if 0 < st.outages then
    (.error "read tcp: connection reset by peer", { st with outages := st.outages - 1 })
  else
    (.ok p.toPost, { st with store := { st.store with posts := p.toPost :: st.store.posts } })

/-- The sample environment over a flaky store. -/
def flakyEnv : Env FlakyStore where
  GetNextFeedToFetch := FlakyStore.lift Store.GetNextFeedToFetch
  MarkFeedFetched := fun st id => FlakyStore.lift (fun s => Store.MarkFeedFetched s id) st
  CreatePost := FlakyStore.CreatePost
  GetFeedByURL := fun st url => FlakyStore.lift (fun s => Store.GetFeedByURL s url) st
  CreateFeed := fun st p => FlakyStore.lift (fun s => Store.CreateFeed s p) st
  CreateFeedFollow := fun st p => FlakyStore.lift (fun s => Store.CreateFeedFollow s p) st
  httpNewRequest := sampleEnv.httpNewRequest
  clientDo := sampleEnv.clientDo
  readAll := sampleEnv.readAll
  xmlUnmarshal := sampleEnv.xmlUnmarshal
  htmlUnescape := sampleEnv.htmlUnescape
  timeParse := sampleEnv.timeParse
  timeParseDuration := sampleEnv.timeParseDuration
  fmtDuration := sampleEnv.fmtDuration
  uuidNew := sampleEnv.uuidNew
  timeNow := sampleEnv.timeNow

/-- A world whose flaky store holds `sampleFeed`, no post, and is about to drop
one insert. -/
def flakyWorld : World FlakyStore :=
  { db := { store := sampleWorld.db, outages := 1 }, clock := 0, out := [] }

end Gator

/-! # Theorems -/

namespace Gator

/-! ## Date normalizer -/

/-- The layout loop runs to its end exactly when every layout fails. -/
theorem parseLayouts_eq_none (tp : String → String → Except String Time) (s : String)
    (ls : List String) :
    parseLayouts tp s ls = none ↔ ∀ layout ∈ ls, ∃ e, tp layout s = .error e := by
  induction ls with
  | nil => simp [parseLayouts]
  | cons l rest ih =>
    unfold parseLayouts
    cases h : tp l s with
    | ok t => simp [h]
    | error e => simp [h, ih]

/-- The layout loop returns the result of the first layout that parses. -/
theorem parseLayouts_eq_some (tp : String → String → Except String Time) (s : String)
    (ls : List String) (t : Time) :
    parseLayouts tp s ls = some t ↔
      ∃ (i : Nat) (layout : String), ls[i]? = some layout ∧ tp layout s = .ok t ∧
        ∀ (j : Nat) (earlier : String), j < i → ls[j]? = some earlier → ∃ e, tp earlier s = .error e := by
  induction ls with
  | nil => simp [parseLayouts]
  | cons l rest ih =>
    unfold parseLayouts
    cases h : tp l s with
    | ok t1 =>
      simp only [Option.some.injEq]
      constructor
      · rintro rfl
        exact ⟨0, l, by simp, h, by intro j e hj; omega⟩
      · rintro ⟨i, layout, hi, hok, hearlier⟩
        cases i with
        | zero =>
          simp at hi
          subst hi
          rw [h] at hok
          injection hok
        | succ k =>
          obtain ⟨e, he⟩ := hearlier 0 l (by omega) (by simp)
          rw [h] at he
          cases he
    | error e =>
      simp only [ih]
      constructor
      · rintro ⟨i, layout, hi, hok, hearlier⟩
        refine ⟨i + 1, layout, by simpa using hi, hok, ?_⟩
        intro j earlier hj hje
        cases j with
        | zero =>
          simp at hje
          subst hje
          exact ⟨e, h⟩
        | succ k => exact hearlier k earlier (by omega) (by simpa using hje)
      · rintro ⟨i, layout, hi, hok, hearlier⟩
        cases i with
        | zero =>
          simp at hi
          subst hi
          rw [h] at hok
          cases hok
        | succ k =>
          refine ⟨k, layout, by simpa using hi, hok, ?_⟩
          intro j earlier hj hje
          exact hearlier (j + 1) earlier (by omega) (by simpa using hje)

/-- C3: `parsePublishedAt` returns the timestamp of the earliest of its 11 layouts
that `time.Parse` accepts for the input (every earlier layout having failed),
and it returns the error `unable to parse date: <input>`, its only error, if
and only if no layout of the list parses the input. -/
theorem parsePublishedAt_earliest_layout (timeParse : String → String → Except String Time)
    (s : String) :
    layouts.length = 11 ∧
    (∀ t, parsePublishedAt timeParse s = .ok t ↔
      ∃ (i : Nat) (layout : String), layouts[i]? = some layout ∧ timeParse layout s = .ok t ∧
        ∀ (j : Nat) (earlier : String), j < i → layouts[j]? = some earlier → ∃ e, timeParse earlier s = .error e) ∧
    (parsePublishedAt timeParse s = .error ("unable to parse date: " ++ s) ↔
      ∀ layout ∈ layouts, ∃ e, timeParse layout s = .error e) ∧
    (∀ e, parsePublishedAt timeParse s = .error e → e = "unable to parse date: " ++ s) := by
  refine ⟨rfl, ?_, ?_, ?_⟩
  · intro t
    rw [← parseLayouts_eq_some]
    unfold parsePublishedAt
    cases h : parseLayouts timeParse s layouts <;> simp
  · rw [← parseLayouts_eq_none]
    unfold parsePublishedAt
    cases h : parseLayouts timeParse s layouts <;> simp
  · intro e
    unfold parsePublishedAt
    cases h : parseLayouts timeParse s layouts <;> simp
    intro h; exact h.symm

/-- C3 at the sample parser: `not-a-date` parses under no layout and yields the
error, `May 3, 2024` parses under the last layout only. -/
theorem parsePublishedAt_earliest_layout_witness :
    parsePublishedAt sampleTimeParse "not-a-date" = .error "unable to parse date: not-a-date" ∧
    parsePublishedAt sampleTimeParse "May 3, 2024" = .ok 1714694400 :=
  ⟨(parsePublishedAt_earliest_layout sampleTimeParse "not-a-date").2.2.1.mpr
      (by intro layout _; simp [sampleTimeParse]),
    ((parsePublishedAt_earliest_layout sampleTimeParse "May 3, 2024").2.1 1714694400).mpr
      ⟨10, "Jan 2, 2006", rfl, rfl, by
        intro j earlier hj hget
        have hj2 : j = 0 ∨ j = 1 ∨ j = 2 ∨ j = 3 ∨ j = 4 ∨ j = 5 ∨ j = 6 ∨ j = 7 ∨ j = 8
            ∨ j = 9 := by omega
        rcases hj2 with h | h | h | h | h | h | h | h | h | h <;> subst h <;>
          (simp [layouts] at hget; subst hget; exact ⟨_, rfl⟩)⟩⟩

/-! ## Feed fetcher -/

theorem getElem?_unescapeItemAt (u : String → String) (l : List RSSItem) (i k : Nat) :
    (unescapeItemAt u l i)[k]? = if k = i then l[i]?.map (unescapedItem u) else l[k]? := by
  unfold unescapeItemAt
  simp only [List.get?_eq_getElem?]
  cases h : l[i]? with
  | none =>
    simp only [h, Option.map_none']
    by_cases hk : k = i
    · subst hk; simp [h]
    · simp [hk]
  | some it =>
    have hlt : i < l.length := by
      rcases Nat.lt_or_ge i l.length with h1 | h1
      · exact h1
      · rw [List.getElem?_eq_none h1] at h; cases h
    simp only [List.getElem?_set_self hlt]
    by_cases hk : k = i
    · subst hk
      simp [List.getElem?_set_self, hlt, unescapedItem]
    · have hne : i ≠ k := fun e => hk e.symm
      simp [hk, List.getElem?_set_ne hne]

theorem getElem?_foldl_unescapeItemAt (u : String → String) (l : List RSSItem) (n : Nat) :
    ∀ k : Nat, ((List.range n).foldl (unescapeItemAt u) l)[k]? =
      if k < n then l[k]?.map (unescapedItem u) else l[k]? := by
  induction n with
  | zero => simp
  | succ m ih =>
    intro k
    rw [List.range_succ, List.foldl_append]
    simp only [List.foldl_cons, List.foldl_nil, getElem?_unescapeItemAt, ih]
    by_cases hk : k = m
    · subst hk; simp
    · by_cases hlt : k < m
      · simp [hk, hlt, Nat.lt_succ_of_lt hlt]
      · have : ¬ k < m + 1 := by omega
        simp [hk, hlt, this]

theorem unescapeItems_eq_map (u : String → String) (l : List RSSItem) :
    unescapeItems u l = l.map (unescapedItem u) := by
  apply List.ext_getElem?
  intro k
  unfold unescapeItems
  rw [getElem?_foldl_unescapeItemAt, List.getElem?_map]
  by_cases hk : k < l.length
  · simp [hk]
  · simp [hk, List.getElem?_eq_none (Nat.le_of_not_lt hk)]


/-! ## Trace bookkeeping -/

theorem tickerIntervals_append (a b : List Event) :
    tickerIntervals (a ++ b) = tickerIntervals a ++ tickerIntervals b := by
  simp [tickerIntervals]

theorem createPostCalls_append (a b : List Event) :
    createPostCalls (a ++ b) = createPostCalls a ++ createPostCalls b := by
  simp [createPostCalls]

theorem scrapeCount_append (a b : List Event) :
    scrapeCount (a ++ b) = scrapeCount a + scrapeCount b := by
  simp [scrapeCount]

theorem fetchFeed_db {σ : Type} (env : Env σ) (w : World σ) (url : String) :
    (fetchFeed env w url).2.db = w.db := by
  unfold fetchFeed
  repeat' split
  all_goals rfl

theorem fetchFeed_out {σ : Type} (env : Env σ) (w : World σ) (url : String) :
    (fetchFeed env w url).2.out = w.out ∨ (fetchFeed env w url).2.out = w.out ++ [.httpDo url] := by
  unfold fetchFeed
  repeat' split
  all_goals simp

theorem ingestItem_out {σ : Type} (env : Env σ) (feed : Feed) (w : World σ) (item : RSSItem) :
    ∃ extra, (ingestItem env feed w item).out = w.out ++ extra ∧
      tickerIntervals extra = [] ∧ scrapeCount extra = 0 ∧
      (createPostCalls extra).map CreatePostParams.content = (postContent env feed item).toList := by
  unfold ingestItem postContent
  cases h : parsePublishedAt env.timeParse item.PubDate with
  | error err =>
    exact ⟨_, rfl, rfl, rfl, rfl⟩
  | ok t =>
    simp only
    cases h2 : (env.CreatePost w.db (postParams env feed w.clock item t)).1 with
    | ok _ => exact ⟨_, rfl, rfl, rfl, rfl⟩
    | error err =>
      simp only
      split
      · exact ⟨[.dbCreatePost (postParams env feed w.clock item t),
          .print "Duplicate key found, passing\n"], by simp [World.emit], rfl, rfl, rfl⟩
      · exact ⟨[.dbCreatePost (postParams env feed w.clock item t),
          .print ("Error creating post: " ++ err ++ "\n")], by simp [World.emit], rfl, rfl, rfl⟩

theorem ingestItems_out {σ : Type} (env : Env σ) (feed : Feed) (items : List RSSItem) :
    ∀ w : World σ, ∃ extra, (ingestItems env feed w items).out = w.out ++ extra ∧
      tickerIntervals extra = [] ∧ scrapeCount extra = 0 ∧
      (createPostCalls extra).map CreatePostParams.content =
        items.filterMap (postContent env feed) := by
  induction items with
  | nil => intro w; exact ⟨[], by simp [ingestItems], rfl, rfl, rfl⟩
  | cons it rest ih =>
    intro w
    obtain ⟨e1, h1, t1, s1, c1⟩ := ingestItem_out env feed w it
    obtain ⟨e2, h2, t2, s2, c2⟩ := ih (ingestItem env feed w it)
    refine ⟨e1 ++ e2, ?_, ?_, ?_, ?_⟩
    · simp only [ingestItems, List.foldl_cons] at h2 ⊢
      rw [h2, h1, List.append_assoc]
    · rw [tickerIntervals_append, t1, t2]; rfl
    · rw [scrapeCount_append, s1, s2]
    · rw [createPostCalls_append, List.map_append, c1, c2]
      cases h : postContent env feed it <;> simp [List.filterMap_cons, h]


theorem scrapeFeeds_sel_error {σ : Type} (env : Env σ) (w : World σ) (err : String) (db1 : σ)
    (hsel : env.GetNextFeedToFetch w.db = (.error err, db1)) :
    scrapeFeeds env w = (some ("error getting next feed: " ++ err),
      { db := db1, clock := w.clock, out := w.out ++ [.dbGetNextFeedToFetch] }) := by
  unfold scrapeFeeds
  simp [hsel]

theorem scrapeFeeds_mark_error {σ : Type} (env : Env σ) (w : World σ) (feed : Feed) (db1 : σ)
    (err : String) (db2 : σ)
    (hsel : env.GetNextFeedToFetch w.db = (.ok feed, db1))
    (hmark : env.MarkFeedFetched db1 feed.ID = (.error err, db2)) :
    scrapeFeeds env w = (some ("error marking feed as fetched: " ++ err),
      fetchWorld w feed db2) := by
  unfold scrapeFeeds
  simp [hsel, hmark, World.emit]
  rfl

theorem scrapeFeeds_fetch_error {σ : Type} (env : Env σ) (w : World σ) (feed : Feed) (db1 : σ)
    (marked : Feed) (db2 : σ) (err : String) (w4 : World σ)
    (hsel : env.GetNextFeedToFetch w.db = (.ok feed, db1))
    (hmark : env.MarkFeedFetched db1 feed.ID = (.ok marked, db2))
    (hfetch : fetchFeed env (fetchWorld w feed db2) feed.Url = (.error err, w4)) :
    scrapeFeeds env w = (some ("error fetching feed: " ++ err), w4) := by
  unfold scrapeFeeds
  simp [fetchWorld, markedTrace] at hfetch
  simp [hsel, hmark, World.emit, hfetch]

theorem scrapeFeeds_fetch_ok {σ : Type} (env : Env σ) (w : World σ) (feed : Feed) (db1 : σ)
    (marked : Feed) (db2 : σ) (rss : RSSFeed) (w4 : World σ)
    (hsel : env.GetNextFeedToFetch w.db = (.ok feed, db1))
    (hmark : env.MarkFeedFetched db1 feed.ID = (.ok marked, db2))
    (hfetch : fetchFeed env (fetchWorld w feed db2) feed.Url = (.ok rss, w4)) :
    scrapeFeeds env w = (none, ingestItems env feed w4 rss.Channel.Item) := by
  unfold scrapeFeeds
  simp [fetchWorld, markedTrace] at hfetch
  simp [hsel, hmark, World.emit, hfetch]

theorem scrapeFeeds_out {σ : Type} (env : Env σ) (w : World σ) :
    ∃ extra, (scrapeFeeds env w).2.out = w.out ++ extra ∧
      tickerIntervals extra = [] ∧ scrapeCount extra = 1 := by
  rcases hsel : env.GetNextFeedToFetch w.db with ⟨r, db1⟩
  cases r with
  | error err =>
    rw [scrapeFeeds_sel_error env w err db1 hsel]
    exact ⟨[.dbGetNextFeedToFetch], rfl, rfl, rfl⟩
  | ok feed =>
    rcases hmark : env.MarkFeedFetched db1 feed.ID with ⟨m, db2⟩
    cases m with
    | error err =>
      rw [scrapeFeeds_mark_error env w feed db1 err db2 hsel hmark]
      exact ⟨_, rfl, rfl, rfl⟩
    | ok marked =>
      have hf := fetchFeed_out env (fetchWorld w feed db2) feed.Url
      rcases hfetch : fetchFeed env (fetchWorld w feed db2) feed.Url with ⟨f, w4⟩
      rw [hfetch] at hf
      simp only at hf
      have hfw : (fetchWorld w feed db2).out = w.out ++ markedTrace feed := rfl
      rw [hfw] at hf
      cases f with
      | error err =>
        rw [scrapeFeeds_fetch_error env w feed db1 marked db2 err w4 hsel hmark hfetch]
        rcases hf with hf | hf
        · exact ⟨markedTrace feed, hf, rfl, rfl⟩
        · exact ⟨markedTrace feed ++ [Event.httpDo feed.Url], by rw [hf, List.append_assoc], rfl, rfl⟩
      | ok rss =>
        rw [scrapeFeeds_fetch_ok env w feed db1 marked db2 rss w4 hsel hmark hfetch]
        obtain ⟨e2, h2, t2, s2, -⟩ := ingestItems_out env feed rss.Channel.Item w4
        rcases hf with hf | hf
        · refine ⟨markedTrace feed ++ e2, by rw [h2, hf, List.append_assoc], ?_, ?_⟩
          · rw [tickerIntervals_append, t2]; rfl
          · rw [scrapeCount_append, s2]; rfl
        · refine ⟨markedTrace feed ++ ([Event.httpDo feed.Url] ++ e2),
            by rw [h2, hf, List.append_assoc, List.append_assoc], ?_, ?_⟩
          · rw [tickerIntervals_append, tickerIntervals_append, t2]; rfl
          · rw [scrapeCount_append, scrapeCount_append, s2]; rfl

theorem aggTick_out {σ : Type} (env : Env σ) (w : World σ) :
    ∃ extra, (aggTick env w).out = w.out ++ extra ∧
      tickerIntervals extra = [] ∧ scrapeCount extra = 1 := by
  obtain ⟨e, h, t, c⟩ := scrapeFeeds_out env w
  unfold aggTick
  simp only
  cases hr : (scrapeFeeds env w).1 with
  | none => exact ⟨e, h, t, c⟩
  | some err =>
    refine ⟨e ++ [.print ("Error scraping feeds: " ++ err ++ "\n")], ?_, ?_, ?_⟩
    · simp [World.emit, h]
    · rw [tickerIntervals_append, t]; rfl
    · rw [scrapeCount_append, c]; rfl

theorem aggLoop_succ {σ : Type} (env : Env σ) (n : Nat) :
    ∀ w : World σ, aggLoop env (n + 1) w = aggTick env (aggLoop env n w) := by
  induction n with
  | zero => intro w; rfl
  | succ k ih =>
    intro w
    show aggLoop env (k + 1) (aggTick env w) = _
    rw [ih (aggTick env w)]
    rfl

theorem aggLoop_out {σ : Type} (env : Env σ) (n : Nat) (w : World σ) :
    ∃ extra, (aggLoop env n w).out = w.out ++ extra ∧
      tickerIntervals extra = [] ∧ scrapeCount extra = n := by
  induction n with
  | zero => exact ⟨[], by simp [aggLoop], rfl, rfl⟩
  | succ k ih =>
    obtain ⟨e1, h1, t1, c1⟩ := ih
    obtain ⟨e2, h2, t2, c2⟩ := aggTick_out env (aggLoop env k w)
    rw [aggLoop_succ]
    refine ⟨e1 ++ e2, by rw [h2, h1, List.append_assoc], ?_, ?_⟩
    · rw [tickerIntervals_append, t1, t2]; rfl
    · rw [scrapeCount_append, c1, c2]


/-! ## Feed fetcher -/

/-- C8: when the request is built, sent, read and decoded successfully,
`fetchFeed` returns a feed whose channel title and description and whose
items' titles and descriptions are `html.UnescapeString` applied once to the
decoded values, with the channel link, every item's link and pubDate, and the
number and order of the items as decoded. -/
theorem fetchFeed_unescapes_once {σ : Type} (env : Env σ) (w : World σ) (feedURL : String)
    (response : Response) (body : String) (decoded : RSSFeed)
    (hreq : env.httpNewRequest feedURL = none)
    (hdo : env.clientDo w.clock feedURL = .ok response)
    (hread : env.readAll response = .ok body)
    (hxml : env.xmlUnmarshal body = .ok decoded) :
    ∃ feed, (fetchFeed env w feedURL).1 = .ok feed ∧
      feed.Channel.Title = env.htmlUnescape decoded.Channel.Title ∧
      feed.Channel.Description = env.htmlUnescape decoded.Channel.Description ∧
      feed.Channel.Link = decoded.Channel.Link ∧
      feed.Channel.Item.length = decoded.Channel.Item.length ∧
      ∀ (i : Nat) (it : RSSItem), decoded.Channel.Item[i]? = some it →
        feed.Channel.Item[i]? = some
          { Title := env.htmlUnescape it.Title, Link := it.Link,
            Description := env.htmlUnescape it.Description, PubDate := it.PubDate } := by
  refine ⟨unescapeFeed env.htmlUnescape decoded, ?_, rfl, rfl, rfl, ?_, ?_⟩
  · unfold fetchFeed
    simp [hreq, hdo, hread, hxml]
  · simp [unescapeFeed, unescapeItems_eq_map]
  · intro i it hi
    simp [unescapeFeed, unescapeItems_eq_map, hi, unescapedItem]

/-- C8 at the sample feed document: the channel title and the second item's
description lose their `&amp;`, links and dates stay. -/
theorem fetchFeed_unescapes_once_witness :
    ∃ feed, (fetchFeed sampleEnv sampleWorld "https://example.com/rss").1 = .ok feed ∧
      feed.Channel.Title = "Tom & Jerry" ∧
      feed.Channel.Description = "news" ∧
      feed.Channel.Link = "https://example.com" ∧
      feed.Channel.Item.length = 3 ∧
      ∀ (i : Nat) (it : RSSItem), sampleFeedDoc.Channel.Item[i]? = some it →
        feed.Channel.Item[i]? = some
          { Title := sampleUnescape it.Title, Link := it.Link,
            Description := sampleUnescape it.Description, PubDate := it.PubDate } :=
  fetchFeed_unescapes_once sampleEnv sampleWorld "https://example.com/rss" 0 "<rss/>"
    sampleFeedDoc rfl rfl rfl rfl

/-! ## Fetch scheduler -/

/-- C4: for every duration `d` parsed from the single argument, `handlerAgg`
creates its ticker with the interval `max d (1 second)`: one second when `d`
is below one second, `d` itself otherwise. -/
theorem handlerAgg_clamps_interval {σ : Type} (env : Env σ) (ticks : Nat) (w : World σ)
    (name arg : String) (d : Int) (hparse : env.timeParseDuration arg = .ok d) :
    ∃ w1, handlerAgg env ticks w { Name := name, Args := [arg] } = .running w1 ∧
      tickerIntervals w1.out = tickerIntervals w.out ++ [max d 1000000000] ∧
      (d < 1000000000 → tickerIntervals w1.out = tickerIntervals w.out ++ [1000000000]) ∧
      (1000000000 ≤ d → tickerIntervals w1.out = tickerIntervals w.out ++ [d]) := by
  have key : ∃ w1, handlerAgg env ticks w { Name := name, Args := [arg] } = .running w1 ∧
      tickerIntervals w1.out = tickerIntervals w.out ++ [max d 1000000000] := by
    unfold handlerAgg
    simp only [List.length_singleton, ne_eq, not_true_eq_false, if_false, List.get?_cons_zero,
      hparse]
    by_cases hlt : d < minInterval
    · have hmax : max d 1000000000 = minInterval := by
        unfold minInterval at hlt ⊢; omega
      have hpos : ¬ minInterval ≤ 0 := by unfold minInterval; omega
      simp only [if_pos hlt, if_neg hpos]
      obtain ⟨e, he, ht, -⟩ := aggLoop_out env ticks
        (((w.emit (.print ("Warning: Requested interval " ++ env.fmtDuration d
            ++ " is too short. Using " ++ env.fmtDuration minInterval ++ " instead.\n"))).emit
          (.print ("Collecting feeds every " ++ env.fmtDuration minInterval ++ "\n"))).emit
          (.newTicker minInterval))
      refine ⟨_, rfl, ?_⟩
      rw [he, tickerIntervals_append, ht, hmax]
      simp [World.emit, tickerIntervals]
    · have hmax : max d 1000000000 = d := by
        unfold minInterval at hlt; omega
      have hpos : ¬ d ≤ 0 := by unfold minInterval at hlt; omega
      simp only [if_neg hlt, if_neg hpos]
      obtain ⟨e, he, ht, -⟩ := aggLoop_out env ticks
        ((w.emit (.print ("Collecting feeds every " ++ env.fmtDuration d ++ "\n"))).emit
          (.newTicker d))
      refine ⟨_, rfl, ?_⟩
      rw [he, tickerIntervals_append, ht, hmax]
      simp [World.emit, tickerIntervals]
  obtain ⟨w1, h1, h2⟩ := key
  refine ⟨w1, h1, h2, ?_, ?_⟩
  · intro hd
    rw [h2, max_eq_right (by omega)]
  · intro hd
    rw [h2, max_eq_left hd]

/-- C4 at the argument `100ms`: the ticker is created with one second. -/
theorem handlerAgg_clamps_interval_witness :
    ∃ w1, handlerAgg sampleEnv 2 sampleWorld { Name := "agg", Args := ["100ms"] } = .running w1 ∧
      tickerIntervals w1.out = [1000000000] :=
  match handlerAgg_clamps_interval sampleEnv 2 sampleWorld "agg" "100ms" 100000000 rfl with
  | ⟨w1, h1, _, h3, _⟩ => ⟨w1, h1, h3 (by decide)⟩


/-- C7: once `handlerAgg` has parsed its duration argument, then after any
number of ticks, and whatever `scrapeFeeds` returned in them, the handler has
not returned and has not panicked: it has invoked `scrapeFeeds` once per tick,
it carries out the next tick as well, and a tick whose `scrapeFeeds` returns
an error only prints `Error scraping feeds: <error>`. -/
theorem handlerAgg_never_returns {σ : Type} (env : Env σ) (w : World σ) (name arg : String)
    (d : Int) (hparse : env.timeParseDuration arg = .ok d) (ticks : Nat) :
    ∃ w0, handlerAgg env 0 w { Name := name, Args := [arg] } = .running w0 ∧
      handlerAgg env ticks w { Name := name, Args := [arg] } = .running (aggLoop env ticks w0) ∧
      scrapeCount (aggLoop env ticks w0).out = scrapeCount w.out + ticks ∧
      handlerAgg env (ticks + 1) w { Name := name, Args := [arg] } =
        .running (aggTick env (aggLoop env ticks w0)) ∧
      (∀ err w1, scrapeFeeds env (aggLoop env ticks w0) = (some err, w1) →
        aggTick env (aggLoop env ticks w0) =
          w1.emit (.print ("Error scraping feeds: " ++ err ++ "\n"))) ∧
      (∀ w1, scrapeFeeds env (aggLoop env ticks w0) = (none, w1) →
        aggTick env (aggLoop env ticks w0) = w1) := by
  have shape : ∃ w0, scrapeCount w0.out = scrapeCount w.out ∧
      ∀ n, handlerAgg env n w { Name := name, Args := [arg] } = .running (aggLoop env n w0) := by
    unfold handlerAgg
    simp only [List.length_singleton, ne_eq, not_true_eq_false, if_false, List.get?_cons_zero,
      hparse]
    by_cases hlt : d < minInterval
    · have hpos : ¬ minInterval ≤ 0 := by unfold minInterval; omega
      simp only [if_pos hlt, if_neg hpos]
      exact ⟨_, by simp [World.emit, scrapeCount], fun n => rfl⟩
    · have hpos : ¬ d ≤ 0 := by unfold minInterval at hlt; omega
      simp only [if_neg hlt, if_neg hpos]
      exact ⟨_, by simp [World.emit, scrapeCount], fun n => rfl⟩
  obtain ⟨w0, hc, hrun⟩ := shape
  refine ⟨w0, hrun 0, hrun ticks, ?_, ?_, ?_, ?_⟩
  · obtain ⟨e, he, -, hs⟩ := aggLoop_out env ticks w0
    rw [he, scrapeCount_append, hs, hc]
  · rw [hrun (ticks + 1), aggLoop_succ]
  · intro err w1 h
    unfold aggTick
    simp [h]
  · intro w1 h
    unfold aggTick
    simp [h]

/-- C7 at the sample store with a feed whose host does not resolve: after
three ticks, each of which failed, `handlerAgg` is still running and has
invoked `scrapeFeeds` three times. -/
theorem handlerAgg_never_returns_witness :
    ∃ w0, handlerAgg sampleEnv 0 brokenWorld { Name := "agg", Args := ["30s"] } = .running w0 ∧
      handlerAgg sampleEnv 3 brokenWorld { Name := "agg", Args := ["30s"] } =
        .running (aggLoop sampleEnv 3 w0) ∧
      scrapeCount (aggLoop sampleEnv 3 w0).out = 3 :=
  match handlerAgg_never_returns sampleEnv brokenWorld "agg" "30s" 30000000000 rfl 3 with
  | ⟨w0, h0, h1, h2, _⟩ => ⟨w0, h0, h1, h2⟩

/-! ## One scheduler tick -/

/-- C5: in every tick in which a feed is selected, the trace of `scrapeFeeds`
continues with the selection, the `Fetching feed` line and the
`MarkFeedFetched` call for that feed, and everything else the tick does (the
fetch included) comes after; when `MarkFeedFetched` fails nothing comes after,
and when the fetch (request, transfer or decoding) fails afterwards, the
database the tick leaves is the one `MarkFeedFetched` produced. -/
theorem scrapeFeeds_marks_before_fetch {σ : Type} (env : Env σ) (w : World σ) (feed : Feed)
    (db1 : σ) (hsel : env.GetNextFeedToFetch w.db = (.ok feed, db1)) :
    (∃ rest, (scrapeFeeds env w).2.out =
        w.out ++ [.dbGetNextFeedToFetch, .print ("Fetching feed: " ++ feed.Url ++ "\n"),
          .dbMarkFeedFetched feed.ID] ++ rest ∧
        (∀ e, (env.MarkFeedFetched db1 feed.ID).1 = .error e → rest = [])) ∧
    (∀ marked db2, env.MarkFeedFetched db1 feed.ID = (.ok marked, db2) →
      (fetchWorld w feed db2).db = db2 ∧
      (fetchWorld w feed db2).out =
        w.out ++ [.dbGetNextFeedToFetch, .print ("Fetching feed: " ++ feed.Url ++ "\n"),
          .dbMarkFeedFetched feed.ID] ∧
      (∀ err w4, fetchFeed env (fetchWorld w feed db2) feed.Url = (.error err, w4) →
        scrapeFeeds env w = (some ("error fetching feed: " ++ err), w4) ∧ w4.db = db2) ∧
      (∀ rss w4, fetchFeed env (fetchWorld w feed db2) feed.Url = (.ok rss, w4) →
        scrapeFeeds env w = (none, ingestItems env feed w4 rss.Channel.Item))) := by
  constructor
  · rcases hmark : env.MarkFeedFetched db1 feed.ID with ⟨m, db2⟩
    cases m with
    | error err =>
      rw [scrapeFeeds_mark_error env w feed db1 err db2 hsel hmark]
      exact ⟨[], by simp [fetchWorld, markedTrace], fun _ _ => rfl⟩
    | ok marked =>
      have hf := fetchFeed_out env (fetchWorld w feed db2) feed.Url
      rcases hfetch : fetchFeed env (fetchWorld w feed db2) feed.Url with ⟨f, w4⟩
      rw [hfetch] at hf
      have hfw : (fetchWorld w feed db2).out = w.out ++ markedTrace feed := rfl
      simp only [hfw] at hf
      cases f with
      | error err =>
        rw [scrapeFeeds_fetch_error env w feed db1 marked db2 err w4 hsel hmark hfetch]
        rcases hf with hf | hf
        · exact ⟨[], by simp [hf, markedTrace], by intro e he; cases he⟩
        · exact ⟨[Event.httpDo feed.Url], by simp [hf, markedTrace], by intro e he; cases he⟩
      | ok rss =>
        rw [scrapeFeeds_fetch_ok env w feed db1 marked db2 rss w4 hsel hmark hfetch]
        obtain ⟨e2, h2, -, -, -⟩ := ingestItems_out env feed rss.Channel.Item w4
        rcases hf with hf | hf
        · exact ⟨e2, by simp [h2, hf, markedTrace], by intro e he; cases he⟩
        · exact ⟨[Event.httpDo feed.Url] ++ e2, by simp [h2, hf, markedTrace],
            by intro e he; cases he⟩
  · intro marked db2 hmark
    refine ⟨rfl, rfl, ?_, ?_⟩
    · intro err w4 hfetch
      refine ⟨scrapeFeeds_fetch_error env w feed db1 marked db2 err w4 hsel hmark hfetch, ?_⟩
      have := fetchFeed_db env (fetchWorld w feed db2) feed.Url
      rw [hfetch] at this
      exact this
    · intro rss w4 hfetch
      exact scrapeFeeds_fetch_ok env w feed db1 marked db2 rss w4 hsel hmark hfetch

/-- C5 at a store whose only feed has a host that does not resolve: the tick
returns the fetch error and the feed is marked as fetched all the same. -/
theorem scrapeFeeds_marks_before_fetch_witness :
    (scrapeFeeds sampleEnv brokenWorld).1 = some "error fetching feed: dial tcp: no such host" ∧
    (scrapeFeeds sampleEnv brokenWorld).2.db = markedBrokenStore :=
  have h := ((scrapeFeeds_marks_before_fetch sampleEnv brokenWorld brokenFeed brokenWorld.db
    rfl).2 { brokenFeed with LastFetchedAt := some 1714700000 } markedBrokenStore rfl).2.2.1
    "dial tcp: no such host" _ rfl
  ⟨congrArg Prod.fst h.1, (congrArg (fun p => p.2.db) h.1).trans h.2⟩

/-- C6, the claim as stated fails: with a feed selected successfully, a fetch
failure makes `scrapeFeeds` return a non-nil error. -/
theorem scrapeFeeds_returns_fetch_error :
    (sampleEnv.GetNextFeedToFetch brokenWorld.db).1 = .ok brokenFeed ∧
    (scrapeFeeds sampleEnv brokenWorld).1 =
      some "error fetching feed: dial tcp: no such host" :=
  ⟨rfl, rfl⟩

/-- C6 as amended: `scrapeFeeds` returns a non-nil error exactly when
`GetNextFeedToFetch` fails, `MarkFeedFetched` fails or `fetchFeed` fails, each
wrapped with its own message; once the feed is fetched it returns nil, whatever
happens to the items. -/
theorem scrapeFeeds_error_sources {σ : Type} (env : Env σ) (w : World σ) :
    (scrapeFeeds env w).1 =
      match env.GetNextFeedToFetch w.db with
      | (.error err, _) => some ("error getting next feed: " ++ err)
      | (.ok feed, db1) =>
        match env.MarkFeedFetched db1 feed.ID with
        | (.error err, _) => some ("error marking feed as fetched: " ++ err)
        | (.ok _, db2) =>
          match (fetchFeed env (fetchWorld w feed db2) feed.Url).1 with
          | .error err => some ("error fetching feed: " ++ err)
          | .ok _ => none := by
  rcases hsel : env.GetNextFeedToFetch w.db with ⟨r, db1⟩
  cases r with
  | error err => rw [scrapeFeeds_sel_error env w err db1 hsel]
  | ok feed =>
    rcases hmark : env.MarkFeedFetched db1 feed.ID with ⟨m, db2⟩
    cases m with
    | error err =>
      rw [scrapeFeeds_mark_error env w feed db1 err db2 hsel hmark]
      simp [hmark]
    | ok marked =>
      rcases hfetch : fetchFeed env (fetchWorld w feed db2) feed.Url with ⟨f, w4⟩
      cases f with
      | error err =>
        rw [scrapeFeeds_fetch_error env w feed db1 marked db2 err w4 hsel hmark hfetch]
        simp [hmark, hfetch]
      | ok rss =>
        rw [scrapeFeeds_fetch_ok env w feed db1 marked db2 rss w4 hsel hmark hfetch]
        simp [hmark, hfetch]

/-! ## Subscription manager -/

/-- C9, the failing input: with exactly one argument `handlerFollow` passes its
`len(args.Args) < 1` guard and panics on `args.Args[1]`, before any call on the
store. -/
theorem handlerFollow_one_arg_panics {σ : Type} (env : Env σ) (w : World σ) (name arg : String)
    (user : User) :
    handlerFollow env w { Name := name, Args := [arg] } user = .indexOutOfRange 1 1 w :=
  rfl

/-- The sibling `handlerAddFeed`, which reads the same two arguments, checks
`len(args.Args) < 2` and returns the error for one argument. -/
theorem handlerAddFeed_one_arg_error {σ : Type} (env : Env σ) (w : World σ) (name arg : String)
    (user : User) :
    handlerAddFeed env w { Name := name, Args := [arg] } user =
      .returned (some "not enough arguments") w :=
  rfl

/-- With no argument at all `handlerFollow` does return the error. -/
theorem handlerFollow_no_arg_error {σ : Type} (env : Env σ) (w : World σ) (name : String)
    (user : User) :
    handlerFollow env w { Name := name, Args := [] } user =
      .returned (some "not enough arguments") w :=
  rfl

/-! ## Post ingestor against a store that enforces the post key -/

/-- An item whose date is rejected leaves the database alone. -/
theorem ingestItem_db_of_rejected {σ : Type} (env : Env σ) (feed : Feed) (w : World σ)
    (item : RSSItem) (hrej : dateAccepted env item = false) :
    (ingestItem env feed w item).db = w.db := by
  unfold dateAccepted at hrej
  unfold ingestItem
  cases h : parsePublishedAt env.timeParse item.PubDate with
  | error err => rfl
  | ok t => rw [h] at hrej; cases hrej

/-- An accepted item whose key is new adds exactly that key. -/
theorem ingestItem_keys_of_new {σ : Type} (env : Env σ) (keys : σ → List PostKey)
    (henf : EnforcesPostKey env keys) (feed : Feed) (w : World σ) (item : RSSItem)
    (hacc : dateAccepted env item = true) (hnew : (feed.ID, item.Link) ∉ keys w.db) :
    keys (ingestItem env feed w item).db = (feed.ID, item.Link) :: keys w.db := by
  unfold dateAccepted at hacc
  unfold ingestItem
  cases h : parsePublishedAt env.timeParse item.PubDate with
  | error err => rw [h] at hacc; cases hacc
  | ok t =>
    obtain ⟨post, db1, hcreate, hkeys⟩ := (henf w.db (postParams env feed w.clock item t)).2 hnew
    simp only [hcreate]
    exact hkeys

/-- A batch whose accepted items carry pairwise distinct, new URLs stores one
post per accepted item. -/
theorem ingestItems_keys_of_new {σ : Type} (env : Env σ) (keys : σ → List PostKey)
    (henf : EnforcesPostKey env keys) (feed : Feed) (items : List RSSItem) :
    ∀ w : World σ, ((items.filter (dateAccepted env)).map RSSItem.Link).Nodup →
      (∀ it ∈ items, dateAccepted env it = true → (feed.ID, it.Link) ∉ keys w.db) →
      keys (ingestItems env feed w items).db =
        ((items.filter (dateAccepted env)).map fun it => (feed.ID, it.Link)).reverse
          ++ keys w.db := by
  induction items with
  | nil => intro w _ _; simp [ingestItems]
  | cons x rest ih =>
    intro w hnodup hnew
    show keys (ingestItems env feed (ingestItem env feed w x) rest).db = _
    cases hacc : dateAccepted env x with
    | false =>
      have hx := ingestItem_db_of_rejected env feed w x hacc
      simp only [List.filter_cons, hacc] at hnodup ⊢
      rw [ih (ingestItem env feed w x) (by simpa using hnodup) (by
        intro it hit hacc2
        rw [hx]
        exact hnew it (List.mem_cons_of_mem _ hit) hacc2), hx]
      simp
    | true =>
      have hxnew := hnew x (List.mem_cons_self _ _) hacc
      have hx := ingestItem_keys_of_new env keys henf feed w x hacc hxnew
      simp only [List.filter_cons, hacc, if_true, List.map_cons, List.nodup_cons] at hnodup ⊢
      rw [ih (ingestItem env feed w x) hnodup.2 (by
        intro it hit hacc2
        rw [hx]
        intro hmem
        rcases List.mem_cons.mp hmem with heq | hold
        · apply hnodup.1
          have hlink : it.Link = x.Link := by
            have := congrArg Prod.snd heq
            exact this
          rw [← hlink]
          exact List.mem_map_of_mem _ (List.mem_filter.mpr ⟨hit, hacc2⟩)
        · exact hnew it (List.mem_cons_of_mem _ hit) hacc2 hold), hx]
      simp

/-- The modelled store enforces the post key. -/
theorem sampleEnv_enforces : EnforcesPostKey sampleEnv Store.keys := by
  intro db p
  constructor
  · intro hmem
    refine ⟨"pq: duplicate key value violates unique constraint", rfl, ?_⟩
    show Store.CreatePost db p = _
    unfold Store.CreatePost
    rw [if_pos hmem]
  · intro hnew
    refine ⟨p.toPost, { db with posts := p.toPost :: db.posts }, ?_, rfl⟩
    show Store.CreatePost db p = _
    unfold Store.CreatePost
    rw [if_neg hnew]

/-- Accepted and rejected items partition a batch. -/
theorem length_accepted_add_rejected {σ : Type} (env : Env σ) (items : List RSSItem) :
    (items.filter (dateAccepted env)).length +
      (items.filter fun it => !dateAccepted env it).length = items.length := by
  induction items with
  | nil => rfl
  | cons x rest ih =>
    cases h : dateAccepted env x <;> simp [List.filter_cons, h] <;> omega

/-- C1: for every item list and every store, the ingest loop of `scrapeFeeds`
calls `CreatePost` for exactly the items whose pubDate `parsePublishedAt`
accepts, in feed-list order and with the item's title, link, description and
normalized date, whatever the outcome of the other items' date parsing and
`CreatePost` calls; and against a store that enforces the (feed, URL) key, a
batch whose accepted items carry distinct new URLs stores one post per accepted
item, so a batch of three with one unparseable date stores exactly two. -/
theorem ingestItems_isolates_failures {σ : Type} (env : Env σ) (feed : Feed) (w : World σ)
    (items : List RSSItem) :
    (createPostCalls (ingestItems env feed w items).out).map CreatePostParams.content =
      (createPostCalls w.out).map CreatePostParams.content
        ++ items.filterMap (postContent env feed) ∧
    ∀ keys : σ → List PostKey, EnforcesPostKey env keys →
      ((items.filter (dateAccepted env)).map RSSItem.Link).Nodup →
      (∀ it ∈ items, dateAccepted env it = true → (feed.ID, it.Link) ∉ keys w.db) →
      keys (ingestItems env feed w items).db =
        ((items.filter (dateAccepted env)).map fun it => (feed.ID, it.Link)).reverse
          ++ keys w.db ∧
      (items.length = 3 → (items.filter fun it => !dateAccepted env it).length = 1 →
        (keys (ingestItems env feed w items).db).length = (keys w.db).length + 2) := by
  constructor
  · obtain ⟨extra, hout, -, -, hcalls⟩ := ingestItems_out env feed items w
    rw [hout, createPostCalls_append, List.map_append, hcalls]
  · intro keys henf hnodup hnew
    have hkeys := ingestItems_keys_of_new env keys henf feed items w hnodup hnew
    refine ⟨hkeys, ?_⟩
    intro hlen hrej
    have hpart := length_accepted_add_rejected env items
    rw [hkeys]
    simp only [List.length_append, List.length_reverse, List.length_map]
    omega

/-- C1 at the sample batch (a valid item, an item dated `not-a-date`, a valid
item) on an empty posts table: two `CreatePost` calls, two posts. -/
theorem ingestItems_isolates_failures_witness :
    (createPostCalls (ingestItems sampleEnv sampleFeed sampleWorld
      sampleFeedDoc.Channel.Item).out).map CreatePostParams.content =
      [("one", "https://example.com/1", "first", 1714521600, 7),
        ("three", "https://example.com/3", "third", 1714694400, 7)] ∧
    (Store.keys (ingestItems sampleEnv sampleFeed sampleWorld
      sampleFeedDoc.Channel.Item).db).length = 2 :=
  ⟨(ingestItems_isolates_failures sampleEnv sampleFeed sampleWorld
      sampleFeedDoc.Channel.Item).1,
    (((ingestItems_isolates_failures sampleEnv sampleFeed sampleWorld
      sampleFeedDoc.Channel.Item).2 Store.keys sampleEnv_enforces (by decide)
        (by decide)).2 rfl rfl)⟩

/-! ## Post ingestor against a store with repeatable outcomes -/

/-- An item is settled in a database when its date is rejected, its key is
stored, or the store refuses its content: ingesting it changes nothing. -/
theorem ingestItem_db_of_settled {σ : Type} (env : Env σ) (keys : σ → List PostKey)
    (refused : PostContent → Bool) (hrep : RepeatablePostStore env keys refused) (feed : Feed)
    (w : World σ) (item : RSSItem)
    (hset : ∀ c, postContent env feed item = some c →
      (feed.ID, item.Link) ∈ keys w.db ∨ refused c = true) :
    (ingestItem env feed w item).db = w.db := by
  unfold postContent at hset
  unfold ingestItem
  cases h : parsePublishedAt env.timeParse item.PubDate with
  | error err => rfl
  | ok t =>
    rw [h] at hset
    have hs := hset _ rfl
    by_cases hknown : (feed.ID, item.Link) ∈ keys w.db
    · obtain ⟨err, -, hcreate⟩ := (hrep w.db (postParams env feed w.clock item t)).1 hknown
      simp only [hcreate]
      split <;> rfl
    · have href : refused (item.Title, item.Link, item.Description, t, feed.ID) = true := by
        rcases hs with hs | hs
        · exact absurd hs hknown
        · exact hs
      obtain ⟨err, hcreate⟩ :=
        (hrep w.db (postParams env feed w.clock item t)).2.1 hknown href
      simp only [hcreate]
      split <;> rfl

/-- One item leaves the keys as they are or adds its own, new key. -/
theorem ingestItem_keys_step {σ : Type} (env : Env σ) (keys : σ → List PostKey)
    (refused : PostContent → Bool) (hrep : RepeatablePostStore env keys refused) (feed : Feed)
    (w : World σ) (item : RSSItem) :
    (ingestItem env feed w item).db = w.db ∨
      ((feed.ID, item.Link) ∉ keys w.db ∧
        keys (ingestItem env feed w item).db = (feed.ID, item.Link) :: keys w.db ∧
        ∀ c, postContent env feed item = some c → refused c = false) := by
  cases h : parsePublishedAt env.timeParse item.PubDate with
  | error err =>
    left
    exact ingestItem_db_of_settled env keys refused hrep feed w item
      (by intro c hc; unfold postContent at hc; rw [h] at hc; cases hc)
  | ok t =>
    have hcontent : postContent env feed item =
        some (item.Title, item.Link, item.Description, t, feed.ID) := by
      unfold postContent; rw [h]
    by_cases hknown : (feed.ID, item.Link) ∈ keys w.db
    · left
      exact ingestItem_db_of_settled env keys refused hrep feed w item
        (fun _ _ => Or.inl hknown)
    · cases href : refused (item.Title, item.Link, item.Description, t, feed.ID) with
      | true =>
        left
        refine ingestItem_db_of_settled env keys refused hrep feed w item ?_
        intro c hc
        rw [hcontent] at hc
        injection hc with hc
        subst hc
        exact Or.inr href
      | false =>
        right
        obtain ⟨post, db1, hcreate, hkeys⟩ :=
          (hrep w.db (postParams env feed w.clock item t)).2.2 hknown href
        refine ⟨hknown, ?_, ?_⟩
        · unfold ingestItem
          simp only [h, hcreate]
          exact hkeys
        · intro c hc
          rw [hcontent] at hc
          injection hc with hc
          subst hc
          exact href

/-- Stored keys stay stored through one item. -/
theorem ingestItem_keys_mono {σ : Type} (env : Env σ) (keys : σ → List PostKey)
    (refused : PostContent → Bool) (hrep : RepeatablePostStore env keys refused) (feed : Feed)
    (w : World σ) (item : RSSItem) (k : PostKey) (hk : k ∈ keys w.db) :
    k ∈ keys (ingestItem env feed w item).db := by
  rcases ingestItem_keys_step env keys refused hrep feed w item with h | ⟨-, h, -⟩
  · rw [h]; exact hk
  · rw [h]; exact List.mem_cons_of_mem _ hk

/-- Keys stay pairwise distinct through one item. -/
theorem ingestItem_keys_nodup {σ : Type} (env : Env σ) (keys : σ → List PostKey)
    (refused : PostContent → Bool) (hrep : RepeatablePostStore env keys refused) (feed : Feed)
    (w : World σ) (item : RSSItem) (hnd : (keys w.db).Nodup) :
    (keys (ingestItem env feed w item).db).Nodup := by
  rcases ingestItem_keys_step env keys refused hrep feed w item with h | ⟨hnew, h, -⟩
  · rw [h]; exact hnd
  · rw [h]; exact List.nodup_cons.mpr ⟨hnew, hnd⟩

/-- After its turn an item is settled. -/
theorem ingestItem_settles {σ : Type} (env : Env σ) (keys : σ → List PostKey)
    (refused : PostContent → Bool) (hrep : RepeatablePostStore env keys refused) (feed : Feed)
    (w : World σ) (item : RSSItem) :
    ∀ c, postContent env feed item = some c →
      (feed.ID, item.Link) ∈ keys (ingestItem env feed w item).db ∨ refused c = true := by
  intro c hc
  rcases ingestItem_keys_step env keys refused hrep feed w item with h | ⟨-, h, -⟩
  · by_cases hknown : (feed.ID, item.Link) ∈ keys w.db
    · left; rw [h]; exact hknown
    · cases href : refused c with
      | true => right; rfl
      | false =>
        exfalso
        unfold postContent at hc
        cases hp : parsePublishedAt env.timeParse item.PubDate with
        | error err => rw [hp] at hc; cases hc
        | ok t =>
          rw [hp] at hc
          injection hc with hc
          subst hc
          obtain ⟨post, db1, hcreate, hkeys⟩ :=
            (hrep w.db (postParams env feed w.clock item t)).2.2 hknown href
          have hdb : (ingestItem env feed w item).db = db1 := by
            unfold ingestItem
            simp only [hp, hcreate]
          rw [hdb] at h
          rw [h] at hkeys
          exact hknown (hkeys ▸ List.mem_cons_self _ _)
  · left; rw [h]; exact List.mem_cons_self _ _

/-- Stored keys stay stored through a batch. -/
theorem ingestItems_keys_mono {σ : Type} (env : Env σ) (keys : σ → List PostKey)
    (refused : PostContent → Bool) (hrep : RepeatablePostStore env keys refused) (feed : Feed)
    (items : List RSSItem) (k : PostKey) :
    ∀ w : World σ, k ∈ keys w.db → k ∈ keys (ingestItems env feed w items).db := by
  induction items with
  | nil => intro w hk; exact hk
  | cons it rest ih =>
    intro w hk
    exact ih (ingestItem env feed w it)
      (ingestItem_keys_mono env keys refused hrep feed w it k hk)

/-- Keys stay pairwise distinct through a batch. -/
theorem ingestItems_keys_nodup {σ : Type} (env : Env σ) (keys : σ → List PostKey)
    (refused : PostContent → Bool) (hrep : RepeatablePostStore env keys refused) (feed : Feed)
    (items : List RSSItem) :
    ∀ w : World σ, (keys w.db).Nodup → (keys (ingestItems env feed w items).db).Nodup := by
  induction items with
  | nil => intro w h; exact h
  | cons x rest ih =>
    intro w h
    exact ih (ingestItem env feed w x)
      (ingestItem_keys_nodup env keys refused hrep feed w x h)

/-- After a batch every item of it is settled. -/
theorem ingestItems_settles {σ : Type} (env : Env σ) (keys : σ → List PostKey)
    (refused : PostContent → Bool) (hrep : RepeatablePostStore env keys refused) (feed : Feed)
    (items : List RSSItem) :
    ∀ w : World σ, ∀ it ∈ items, ∀ c, postContent env feed it = some c →
      (feed.ID, it.Link) ∈ keys (ingestItems env feed w items).db ∨ refused c = true := by
  induction items with
  | nil => intro w it hit; cases hit
  | cons x rest ih =>
    intro w it hit c hc
    rcases List.mem_cons.mp hit with heq | hmem
    · subst heq
      rcases ingestItem_settles env keys refused hrep feed w it c hc with h | h
      · exact Or.inl (ingestItems_keys_mono env keys refused hrep feed rest _
          (ingestItem env feed w it) h)
      · exact Or.inr h
    · exact ih (ingestItem env feed w x) it hmem c hc

/-- A batch whose items are all settled leaves the database alone. -/
theorem ingestItems_db_of_settled {σ : Type} (env : Env σ) (keys : σ → List PostKey)
    (refused : PostContent → Bool) (hrep : RepeatablePostStore env keys refused) (feed : Feed)
    (items : List RSSItem) :
    ∀ w : World σ,
      (∀ it ∈ items, ∀ c, postContent env feed it = some c →
        (feed.ID, it.Link) ∈ keys w.db ∨ refused c = true) →
      (ingestItems env feed w items).db = w.db := by
  induction items with
  | nil => intro w _; rfl
  | cons x rest ih =>
    intro w hall
    have hx : (ingestItem env feed w x).db = w.db :=
      ingestItem_db_of_settled env keys refused hrep feed w x (hall x (List.mem_cons_self _ _))
    have hrest := ih (ingestItem env feed w x) (by
      intro it hit c hc
      rw [hx]
      exact hall it (List.mem_cons_of_mem _ hit) c hc)
    show (ingestItems env feed (ingestItem env feed w x) rest).db = w.db
    rw [hrest, hx]

/-- The posts table that refuses an empty title has repeatable outcomes. -/
theorem titledEnv_repeatable : RepeatablePostStore titledEnv Store.keys refusesUntitled := by
  intro db p
  refine ⟨?_, ?_, ?_⟩
  · intro hmem
    refine ⟨"pq: duplicate key value violates unique constraint", rfl, ?_⟩
    show Store.CreateTitledPost db p = _
    unfold Store.CreateTitledPost
    rw [if_pos hmem]
  · intro hnew href
    refine ⟨"pq: new row violates check constraint", ?_⟩
    show Store.CreateTitledPost db p = _
    unfold Store.CreateTitledPost
    rw [if_neg hnew, if_pos href]
  · intro hnew href
    refine ⟨p.toPost, { db with posts := p.toPost :: db.posts }, ?_, rfl⟩
    show Store.CreateTitledPost db p = _
    unfold Store.CreateTitledPost
    rw [if_neg hnew]
    simp [href]

/-- C2, the claim as stated fails: a store that rejects every `CreatePost` of a
stored (feed, URL) with the unique-constraint error, but loses one insert to a
connection error, holds one post after one run of the ingest loop over the
sample batch and two after a second run over the same batch. -/
theorem ingestItems_twice_differs_on_flaky_store :
    (∀ (db : FlakyStore) (p : CreatePostParams), p.key ∈ db.store.keys →
      ∃ err, stringsContains err duplicateKeyText = true ∧
        flakyEnv.CreatePost db p = (.error err, db)) ∧
    (ingestItems flakyEnv sampleFeed flakyWorld sampleFeedDoc.Channel.Item).db.store.keys =
      [(7, "https://example.com/3")] ∧
    (ingestItems flakyEnv sampleFeed
      (ingestItems flakyEnv sampleFeed flakyWorld sampleFeedDoc.Channel.Item)
      sampleFeedDoc.Channel.Item).db.store.keys =
      [(7, "https://example.com/1"), (7, "https://example.com/3")] := by
  refine ⟨?_, rfl, rfl⟩
  intro db p hmem
  refine ⟨"pq: duplicate key value violates unique constraint", rfl, ?_⟩
  show FlakyStore.CreatePost db p = _
  unfold FlakyStore.CreatePost
  rw [if_pos hmem]

/-- C2 as amended: against a store that rejects a `CreatePost` whose
(feed, URL) is stored already with the unique-constraint error, and whose
outcome for a new (feed, URL) is repeatable (it stores the post, or it fails
and changes nothing by a rule on the item's content alone), a second run of
the ingest loop of `scrapeFeeds` over the same items leaves the database as
the first run left it: the same posts by feed and URL, no key twice; and a
`scrapeFeeds` tick that fetches these items again into a store they are settled
in returns nil and leaves the database as `MarkFeedFetched` left it. -/
theorem ingestItems_idempotent {σ : Type} (env : Env σ) (keys : σ → List PostKey)
    (refused : PostContent → Bool) (hrep : RepeatablePostStore env keys refused) (feed : Feed)
    (w : World σ) (items : List RSSItem) :
    (ingestItems env feed (ingestItems env feed w items) items).db =
      (ingestItems env feed w items).db ∧
    (∀ k, k ∈ keys (ingestItems env feed (ingestItems env feed w items) items).db ↔
      k ∈ keys (ingestItems env feed w items).db) ∧
    ((keys w.db).Nodup →
      (keys (ingestItems env feed (ingestItems env feed w items) items).db).Nodup) ∧
    (∀ (w0 : World σ) (db1 db2 : σ) (marked : Feed) (rss : RSSFeed) (w4 : World σ),
      env.GetNextFeedToFetch w0.db = (.ok feed, db1) →
      env.MarkFeedFetched db1 feed.ID = (.ok marked, db2) →
      fetchFeed env (fetchWorld w0 feed db2) feed.Url = (.ok rss, w4) →
      rss.Channel.Item = items →
      (∀ it ∈ items, ∀ c, postContent env feed it = some c →
        (feed.ID, it.Link) ∈ keys db2 ∨ refused c = true) →
      (scrapeFeeds env w0).1 = none ∧ (scrapeFeeds env w0).2.db = db2) := by
  have hsame : (ingestItems env feed (ingestItems env feed w items) items).db =
      (ingestItems env feed w items).db :=
    ingestItems_db_of_settled env keys refused hrep feed items (ingestItems env feed w items)
      (ingestItems_settles env keys refused hrep feed items w)
  refine ⟨hsame, ?_, ?_, ?_⟩
  · intro k; rw [hsame]
  · intro hnd
    rw [hsame]
    exact ingestItems_keys_nodup env keys refused hrep feed items w hnd
  · intro w0 db1 db2 marked rss w4 hsel hmark hfetch hitems hsettled
    rw [scrapeFeeds_fetch_ok env w0 feed db1 marked db2 rss w4 hsel hmark hfetch]
    refine ⟨rfl, ?_⟩
    have hdb : w4.db = db2 := by
      have := fetchFeed_db env (fetchWorld w0 feed db2) feed.Url
      rw [hfetch] at this
      exact this
    show (ingestItems env feed w4 rss.Channel.Item).db = db2
    rw [hitems, ingestItems_db_of_settled env keys refused hrep feed items w4
      (by rw [hdb]; exact hsettled), hdb]

/-- C2 as amended, at a posts table that refuses an empty title and a batch
of an untitled item, two valid items and one with an unparseable date: the
untitled item fails with `Error creating post` in both runs, and the second
run changes nothing. -/
theorem ingestItems_idempotent_witness :
    (ingestItems titledEnv sampleFeed
      (ingestItems titledEnv sampleFeed sampleWorld untitledBatch) untitledBatch).db =
      (ingestItems titledEnv sampleFeed sampleWorld untitledBatch).db ∧
    Store.keys (ingestItems titledEnv sampleFeed sampleWorld untitledBatch).db =
      [(7, "https://example.com/3"), (7, "https://example.com/1")] ∧
    Event.print "Error creating post: pq: new row violates check constraint\n" ∈
      (ingestItems titledEnv sampleFeed sampleWorld untitledBatch).out :=
  ⟨(ingestItems_idempotent titledEnv Store.keys refusesUntitled titledEnv_repeatable sampleFeed
    sampleWorld untitledBatch).1, rfl, by decide⟩

/-! ## Text wrapping -/

theorem byteSize_nil : byteSize [] = 0 := rfl

theorem byteSize_cons (c : Char) (l : List Char) : byteSize (c :: l) = byteSize l + c.utf8Size :=
  rfl

theorem byteSize_append (a b : List Char) : byteSize (a ++ b) = byteSize a + byteSize b := by
  induction a with
  | nil => simp [byteSize_nil]
  | cons c a ih => rw [List.cons_append, byteSize_cons, byteSize_cons, ih]; omega

theorem byteSize_reverse (a : List Char) : byteSize a.reverse = byteSize a := by
  induction a with
  | nil => rfl
  | cons c a ih =>
    rw [List.reverse_cons, byteSize_append, byteSize_cons, byteSize_cons, ih, byteSize_nil]
    omega

theorem goLen_eq (s : String) : goLen s = (byteSize s.data : Int) := rfl

/-- A line-feed-free sequence is one line. -/
theorem splitLinesChars_plain (b : List Char) (hb : '\n' ∉ b) : splitLinesChars b = [b] := by
  induction b with
  | nil => rfl
  | cons c b ih =>
    have hc : c ≠ '\n' := fun h => hb (h ▸ List.mem_cons_self _ _)
    have hb2 : '\n' ∉ b := fun h => hb (List.mem_cons_of_mem _ h)
    simp [splitLinesChars, hc, ih hb2]

theorem splitLinesChars_ne_nil (a : List Char) : splitLinesChars a ≠ [] := by
  cases a with
  | nil => simp [splitLinesChars]
  | cons c a =>
    unfold splitLinesChars
    split
    · simp
    · split <;> simp

/-- Appending line-feed-free text extends the last line. -/
theorem splitLinesChars_append_plain (b : List Char) (hb : '\n' ∉ b) (a : List Char) :
    ∀ (pre : List (List Char)) (last : List Char), splitLinesChars a = pre ++ [last] →
      splitLinesChars (a ++ b) = pre ++ [last ++ b] := by
  induction a with
  | nil =>
    intro pre last h
    cases pre with
    | nil =>
      simp [splitLinesChars] at h
      subst h
      simpa using splitLinesChars_plain b hb
    | cons p ps =>
      simp [splitLinesChars] at h
  | cons c a ih =>
    intro pre last h
    have e : (c :: a) ++ b = c :: (a ++ b) := rfl
    rw [e]
    by_cases hc : c = '\n'
    · subst hc
      simp only [splitLinesChars, if_true] at h ⊢
      cases pre with
      | nil =>
        simp at h
        exact absurd h.2 (splitLinesChars_ne_nil a)
      | cons p ps =>
        simp only [List.cons_append, List.cons.injEq] at h
        rw [ih ps last h.2, ← h.1]
        simp
    · simp only [splitLinesChars, hc, if_false] at h ⊢
      cases hsplit : splitLinesChars a with
      | nil => exact absurd hsplit (splitLinesChars_ne_nil a)
      | cons l ls =>
        rw [hsplit] at h
        simp only at h
        cases pre with
        | nil =>
          simp only [List.nil_append, List.cons.injEq] at h
          obtain ⟨h1, h2⟩ := h
          subst h2
          rw [ih [] l (by simpa using hsplit)]
          simp [← h1]
        | cons p ps =>
          simp only [List.cons_append, List.cons.injEq] at h
          obtain ⟨h1, h2⟩ := h
          rw [ih (l :: ps) last (by rw [hsplit, h2]; rfl)]
          simp [← h1]

/-- Appending a line feed and line-feed-free text adds that text as a line. -/
theorem splitLinesChars_append_newline (b : List Char) (hb : '\n' ∉ b) (a : List Char) :
    splitLinesChars (a ++ '\n' :: b) = splitLinesChars a ++ [b] := by
  induction a with
  | nil => simp [splitLinesChars, splitLinesChars_plain b hb]
  | cons c a ih =>
    have e : (c :: a) ++ '\n' :: b = c :: (a ++ '\n' :: b) := rfl
    rw [e]
    by_cases hc : c = '\n'
    · subst hc
      simp [splitLinesChars, ih]
    · simp only [splitLinesChars, hc, if_false, ih]
      cases hsplit : splitLinesChars a with
      | nil => exact absurd hsplit (splitLinesChars_ne_nil a)
      | cons l ls => simp

/-- The words `strings.Fields` returns hold no white space. -/
theorem fieldsChars_no_space (cs : List Char) :
    ∀ cur : List Char, (∀ c ∈ cur, unicodeIsSpace c = false) →
      ∀ w ∈ fieldsChars cs cur, ∀ c ∈ w.data, unicodeIsSpace c = false := by
  induction cs with
  | nil =>
    intro cur hcur w hw c hc
    unfold fieldsChars at hw
    split at hw
    · cases hw
    · simp only [List.mem_singleton] at hw
      subst hw
      exact hcur c (by simpa using hc)
  | cons x cs ih =>
    intro cur hcur w hw c hc
    unfold fieldsChars at hw
    split at hw
    · split at hw
      · exact ih [] (by intro c hc; cases hc) w hw c hc
      · rcases List.mem_cons.mp hw with heq | hmem
        · subst heq
          exact hcur c (by simpa using hc)
        · exact ih [] (by intro c hc; cases hc) w hmem c hc
    · rename_i hx
      refine ih (x :: cur) ?_ w hw c hc
      intro c hc
      rcases List.mem_cons.mp hc with heq | hmem
      · subst heq; simpa using hx
      · exact hcur c hmem

/-- The words of a text hold no line feed. -/
theorem stringsFields_no_newline (text : String) (w : String) (hw : w ∈ stringsFields text) :
    '\n' ∉ w.data := by
  intro hmem
  have := fieldsChars_no_space text.data [] (by intro c hc; cases hc) w hw '\n' hmem
  exact absurd this (by decide)

/-- The words of a text, each with one separator, fit in the text and one more
byte. -/
theorem fieldsChars_size (cs : List Char) :
    ∀ cur : List Char,
      ((fieldsChars cs cur).map fun w => byteSize w.data + 1).sum
        ≤ byteSize cur + byteSize cs + 1 := by
  induction cs with
  | nil =>
    intro cur
    unfold fieldsChars
    split
    · simp
    · simp [byteSize_reverse, byteSize_nil]
  | cons x cs ih =>
    intro cur
    have hx := x.utf8Size_pos
    unfold fieldsChars
    split
    · split
      · have := ih []
        rw [byteSize_cons]
        rw [byteSize_nil] at this
        omega
      · have := ih []
        rw [byteSize_nil] at this
        simp only [List.map_cons, List.sum_cons, byteSize_reverse, byteSize_cons]
        omega
    · have := ih (x :: cur)
      rw [byteSize_cons] at this ⊢
      omega

/-- A word after the first is at least two bytes shorter than the text. -/
theorem stringsFields_rest_size (text first : String) (rest : List String)
    (hf : stringsFields text = first :: rest) (w : String) (hw : w ∈ rest) :
    goLen w + 1 ≤ goLen text := by
  have htotal := fieldsChars_size text.data []
  have hsum : ∀ (l : List String), w ∈ l →
      byteSize w.data + 1 ≤ (l.map fun w => byteSize w.data + 1).sum := by
    intro l
    induction l with
    | nil => intro h; cases h
    | cons y l ih =>
      intro h
      rcases List.mem_cons.mp h with heq | hmem
      · subst heq; simp
      · have := ih hmem
        simp only [List.map_cons, List.sum_cons]
        omega
  have hrest := hsum rest hw
  unfold stringsFields at hf
  rw [hf, byteSize_nil] at htotal
  simp only [List.map_cons, List.sum_cons] at htotal
  rw [goLen_eq, goLen_eq]
  omega

theorem int64_of_range (x : Int) (hlo : -9223372036854775808 ≤ x)
    (hhi : x ≤ 9223372036854775807) : int64 x = x := by
  unfold int64
  omega

/-- One pass of the loop of `wrapText` keeps every line within the width, the
last line being `lineWidth - spaceLeft` bytes long. -/
theorem wrapStep_lines (lineWidth : Int) (hwidth : lineWidth ≤ 9223372036854775807)
    (st : String × Int) (word : String) (hword : goLen word ≤ lineWidth)
    (hsmall : goLen word + 1 ≤ 9223372036854775807) (hnl : '\n' ∉ word.data)
    (hinv : ∃ pre last, splitLinesChars st.1.data = pre ++ [last] ∧
      (∀ l ∈ pre, (byteSize l : Int) ≤ lineWidth) ∧
      (byteSize last : Int) = lineWidth - st.2 ∧ 0 ≤ st.2) :
    ∃ pre last, splitLinesChars (wrapStep lineWidth st word).1.data = pre ++ [last] ∧
      (∀ l ∈ pre, (byteSize l : Int) ≤ lineWidth) ∧
      (byteSize last : Int) = lineWidth - (wrapStep lineWidth st word).2 ∧
      0 ≤ (wrapStep lineWidth st word).2 := by
  obtain ⟨pre, last, hsplit, hpre, hlast, hpos⟩ := hinv
  have hlen : goLen word = (byteSize word.data : Int) := rfl
  have hnn : (0 : Int) ≤ byteSize word.data := Int.ofNat_nonneg _
  have hlastnn : (0 : Int) ≤ byteSize last := Int.ofNat_nonneg _
  have h1 : int64 (goLen word + 1) = goLen word + 1 :=
    int64_of_range _ (by omega) hsmall
  unfold wrapStep
  rw [h1]
  by_cases hgt : goLen word + 1 > st.2
  · rw [if_pos hgt]
    have h2 : int64 (lineWidth - goLen word) = lineWidth - goLen word :=
      int64_of_range _ (by omega) (by omega)
    refine ⟨pre ++ [last], word.data, ?_, ?_, ?_, ?_⟩
    · show splitLinesChars (st.1.data ++ '\n' :: word.data) = _
      rw [splitLinesChars_append_newline word.data hnl, hsplit]
    · intro l hl
      rcases List.mem_append.mp hl with h | h
      · exact hpre l h
      · simp only [List.mem_singleton] at h
        subst h
        omega
    · show (byteSize word.data : Int) = lineWidth - int64 (lineWidth - goLen word)
      rw [h2]; omega
    · show 0 ≤ int64 (lineWidth - goLen word)
      rw [h2]; omega
  · rw [if_neg hgt]
    have h2 : int64 (st.2 - (goLen word + 1)) = st.2 - (goLen word + 1) :=
      int64_of_range _ (by omega) (by omega)
    have hplain : '\n' ∉ ' ' :: word.data := by
      intro h
      rcases List.mem_cons.mp h with h | h
      · exact absurd h (by decide)
      · exact hnl h
    refine ⟨pre, last ++ ' ' :: word.data, ?_, hpre, ?_, ?_⟩
    · show splitLinesChars (st.1.data ++ ' ' :: word.data) = _
      exact splitLinesChars_append_plain _ hplain st.1.data pre last hsplit
    · show ((byteSize (last ++ ' ' :: word.data) : Nat) : Int) =
        lineWidth - int64 (st.2 - (goLen word + 1))
      rw [h2, byteSize_append, byteSize_cons]
      have hsp : (' ' : Char).utf8Size = 1 := by decide
      rw [hsp]
      push_cast
      omega
    · show 0 ≤ int64 (st.2 - (goLen word + 1))
      rw [h2]; omega

/-- The loop of `wrapText` keeps every line within the width. -/
theorem wrapFold_lines (lineWidth : Int) (hwidth : lineWidth ≤ 9223372036854775807)
    (rest : List String) :
    ∀ st : String × Int,
      (∀ w ∈ rest, goLen w ≤ lineWidth ∧ goLen w + 1 ≤ 9223372036854775807 ∧ '\n' ∉ w.data) →
      (∃ pre last, splitLinesChars st.1.data = pre ++ [last] ∧
        (∀ l ∈ pre, (byteSize l : Int) ≤ lineWidth) ∧
        (byteSize last : Int) = lineWidth - st.2 ∧ 0 ≤ st.2) →
      ∀ l ∈ splitLinesChars (rest.foldl (wrapStep lineWidth) st).1.data,
        (byteSize l : Int) ≤ lineWidth := by
  induction rest with
  | nil =>
    intro st _ hinv l hl
    obtain ⟨pre, last, hsplit, hpre, hlast, hpos⟩ := hinv
    simp only [List.foldl_nil, hsplit] at hl
    rcases List.mem_append.mp hl with h | h
    · exact hpre l h
    · simp only [List.mem_singleton] at h
      subst h
      omega
  | cons w rest ih =>
    intro st hall hinv
    obtain ⟨h1, h2, h3⟩ := hall w (List.mem_cons_self _ _)
    have hstep := wrapStep_lines lineWidth hwidth st w h1 h2 h3 hinv
    have hrest : ∀ x ∈ rest,
        goLen x ≤ lineWidth ∧ goLen x + 1 ≤ 9223372036854775807 ∧ '\n' ∉ x.data :=
      fun x hx => hall x (List.mem_cons_of_mem _ hx)
    rw [List.foldl_cons]
    exact ih (wrapStep lineWidth st w) hrest hstep

/-- C10: for a text and a width (an `int`) such that every word of the text
is at most `lineWidth` bytes long, every newline-separated line of
`wrapText(text, lineWidth)` is at most `lineWidth` bytes long, and a text
with no words yields the empty string (whose one, empty line is within the
width when the width is not negative). -/
theorem wrapText_line_width (text : String) (lineWidth : Int)
    (hwidth : -9223372036854775808 ≤ lineWidth ∧ lineWidth ≤ 9223372036854775807)
    (htext : goLen text ≤ 9223372036854775807)
    (hwords : ∀ word ∈ stringsFields text, goLen word ≤ lineWidth) :
    (stringsFields text = [] → wrapText text lineWidth = "") ∧
    (stringsFields text ≠ [] ∨ 0 ≤ lineWidth →
      ∀ line ∈ splitLines (wrapText text lineWidth), goLen line ≤ lineWidth) := by
  constructor
  · intro h
    unfold wrapText
    rw [h]
  · intro hcase line hline
    unfold splitLines at hline
    obtain ⟨l, hl, rfl⟩ := List.mem_map.mp hline
    show (byteSize l : Int) ≤ lineWidth
    cases hf : stringsFields text with
    | nil =>
      have hw : wrapText text lineWidth = "" := by unfold wrapText; rw [hf]
      rw [hw] at hl
      have hl2 : l = [] := by simpa [splitLinesChars] using hl
      subst hl2
      rcases hcase with h | h
      · exact absurd hf h
      · simpa [byteSize_nil] using h
    | cons first rest =>
      have hw : wrapText text lineWidth =
          (rest.foldl (wrapStep lineWidth) (first, int64 (lineWidth - goLen first))).1 := by
        unfold wrapText; rw [hf]
      rw [hw] at hl
      have hfirst : goLen first ≤ lineWidth := hwords first (by rw [hf]; exact List.mem_cons_self _ _)
      have hfnn : (0 : Int) ≤ goLen first := Int.ofNat_nonneg _
      have h0 : int64 (lineWidth - goLen first) = lineWidth - goLen first :=
        int64_of_range _ (by omega) (by omega)
      refine wrapFold_lines lineWidth hwidth.2 rest _ ?_ ?_ l hl
      · intro w hw2
        have hmem : w ∈ stringsFields text := by rw [hf]; exact List.mem_cons_of_mem _ hw2
        refine ⟨hwords w hmem, ?_, stringsFields_no_newline text w hmem⟩
        have := stringsFields_rest_size text first rest hf w hw2
        omega
      · refine ⟨[], first.data, ?_, ?_, ?_, ?_⟩
        · show splitLinesChars first.data = _
          rw [splitLinesChars_plain _ (stringsFields_no_newline text first
            (by rw [hf]; exact List.mem_cons_self _ _))]
          rfl
        · intro l hl; cases hl
        · show (byteSize first.data : Int) = lineWidth - int64 (lineWidth - goLen first)
          rw [h0, goLen_eq]; omega
        · show 0 ≤ int64 (lineWidth - goLen first)
          rw [h0]; omega

/-- C10 at a text of nine words wrapped at ten bytes. -/
theorem wrapText_line_width_witness :
    wrapText "the quick  brown fox jumps over\nthe lazy dog" 10 =
      "the quick\nbrown fox\njumps over\nthe lazy\ndog" ∧
    ∀ line ∈ splitLines (wrapText "the quick  brown fox jumps over\nthe lazy dog" 10),
      goLen line ≤ 10 :=
  ⟨rfl, (wrapText_line_width "the quick  brown fox jumps over\nthe lazy dog" 10
    (by decide) (by decide) (by decide)).2 (Or.inr (by decide))⟩

end Gator
